import Mathlib

/-! Cataloger selection and SBOM assembly of syft.

A shallow embedding of `syft/pkg/cataloger/cataloger.go` (the cataloger registry and
its name filter), of `syft/formats/syftjson/to_format_model.go` (the translation of
an SBOM into the syft-json document model), of `syft/pkg/type.go` (the package types
and their PURL types), of the schema writer of `schema/json/generate.go` and of the
excluding resolver of `syft/source`, with the properties the specification states
about them.

Go strings are byte sequences: a string is a list of bytes, each byte a natural
number.  The comparison `<` on strings is the lexicographic order of the byte lists,
which is what Go's string comparison computes.
-/

set_option autoImplicit false

/-- A Go `string`: its bytes, in order. -/
abbrev GoString := List Nat

/-- The UTF-8 encoding of one code point, as the Go compiler stores it in a literal. -/
def utf8 (c : Nat) : List Nat :=
  if c < 0x80 then [c]
  else if c < 0x800 then [0xC0 + c / 0x40, 0x80 + c % 0x40]
  else if c < 0x10000 then [0xE0 + c / 0x1000, 0x80 + c / 0x40 % 0x40, 0x80 + c % 0x40]
  else [0xF0 + c / 0x40000, 0x80 + c / 0x1000 % 0x40, 0x80 + c / 0x40 % 0x40, 0x80 + c % 0x40]

/-- A Go string literal. -/
def str (s : String) : GoString := s.toList.flatMap fun c => utf8 c.toNat

/-- Go's builtin `len` on a string, as an `int`. -/
def len (s : GoString) : Int := s.length

/-- The index expression `s[i]` for an `int` index; every use below is in bounds. -/
def byteAt (s : GoString) (i : Int) : Nat := s.getD i.toNat 0

/-- The byte `'-'`. -/
def dash : Nat := 45

/-! ## Package `strings` of the Go standard library -/

namespace strings

/-- `strings.HasPrefix`: `len(s) >= len(prefix) && s[:len(prefix)] == prefix`. -/
def HasPrefix (s pre : GoString) : Bool :=
  decide (pre.length ≤ s.length) && s.take pre.length == pre

/-- `strings.HasSuffix`: `len(s) >= len(suffix) && s[len(s)-len(suffix):] == suffix`. -/
def HasSuffix (s suffix : GoString) : Bool :=
  decide (suffix.length ≤ s.length) && s.drop (s.length - suffix.length) == suffix

/-- `strings.TrimSuffix`: `s` without the trailing `suffix`, or `s` itself. -/
def TrimSuffix (s suffix : GoString) : GoString :=
  if HasSuffix s suffix then s.take (s.length - suffix.length) else s

/-- The scan behind `strings.Index`: `s` is what remains of the string from byte
offset `i` on; the first offset at which `substr` starts is returned, `-1` if none. -/
def indexFrom (substr : GoString) : GoString → Nat → Int
  | [], i => if HasPrefix [] substr then (i : Int) else -1
  | c :: s, i => if HasPrefix (c :: s) substr then (i : Int) else indexFrom substr s (i + 1)

/-- `strings.Index`: the index of the first instance of `substr` in `s`, or `-1` if
`substr` is not present in `s`. -/
def Index (s substr : GoString) : Int := indexFrom substr s 0

end strings

/-! ## `syft/pkg/cataloger/cataloger.go` -/

/-- The constant `AllCatalogersPattern`. -/
def AllCatalogersPattern : GoString := str "all"

/-- The function `hasFullWord`. -/
def hasFullWord (targetPhrase candidate : GoString) : Bool :=
  if targetPhrase == str "cataloger" || targetPhrase == str "" then false
  else
    let start := strings.Index candidate targetPhrase
    if start == -1 then false
    else if decide (start > 0) && byteAt candidate (start - 1) != dash then false
    else
      let stop := start + len targetPhrase
      if decide (stop < len candidate) && byteAt candidate stop != dash then false
      else true

/-- The loop of `contains` over the patterns, the cataloger name already trimmed. -/
def containsLoop (catalogerName : GoString) : List GoString → Bool
  | [] => false
  | pattern :: rest =>
    let trimmed := strings.TrimSuffix pattern (str "-cataloger")
    if trimmed == str "" then containsLoop catalogerName rest
    else if hasFullWord trimmed catalogerName then true
    else containsLoop catalogerName rest

/-- The function `contains`. -/
def contains (enabledPatterns : List GoString) (catalogerName : GoString) : Bool :=
  containsLoop (strings.TrimSuffix catalogerName (str "-cataloger")) enabledPatterns

/-- The first loop of `filterCatalogers` (and the loop of `RequestedAllCatalogers`):
whether some pattern is exactly `AllCatalogersPattern`. -/
def requestsAll : List GoString → Bool
  | [] => false
  | enableCatalogerPattern :: rest =>
    if enableCatalogerPattern == AllCatalogersPattern then true else requestsAll rest

/-- The function `filterCatalogers`.  A `pkg.Cataloger` is a value of any type `κ`
with its method `Name`. -/
def filterCatalogers {κ : Type} (Name : κ → GoString) (catalogers : List κ)
    (enabledCatalogerPatterns : List GoString) : List κ :=
  if enabledCatalogerPatterns.length == 0 then catalogers
  else if requestsAll enabledCatalogerPatterns then catalogers
  else
    catalogers.foldl
      (fun keepCatalogers cataloger =>
        if contains enabledCatalogerPatterns (Name cataloger) then keepCatalogers ++ [cataloger]
        else keepCatalogers)
      []

/-- What the registry reads of the cataloger configuration `Config`: the patterns
`cfg.Catalogers` and the values of `cfg.Java()` and `cfg.Go()`, whose types `J` and `G`
are declared in the child packages. -/
structure Config (J G : Type) where
  Catalogers : List GoString
  Java : J
  Go : G

/-- The constructor calls that build the catalogers of the registry, named by package
and function; the catalogers themselves live in the child packages. -/
inductive CatalogerCall (J G : Type) where
  | alpm_NewAlpmdbCataloger
  | apkdb_NewApkdbCataloger
  | binary_NewCataloger
  | cpp_NewConanCataloger
  | dart_NewPubspecLockCataloger
  | deb_NewDpkgdbCataloger
  | dotnet_NewDotnetDepsCataloger
  | elixir_NewMixLockCataloger
  | erlang_NewRebarLockCataloger
  | golang_NewGoModuleBinaryCataloger (opts : G)
  | golang_NewGoModFileCataloger (opts : G)
  | haskell_NewHackageCataloger
  | java_NewJavaCataloger (cfg : J)
  | java_NewJavaPomCataloger
  | java_NewNativeImageCataloger
  | java_NewJavaGradleLockfileCataloger
  | javascript_NewPackageCataloger
  | javascript_NewLockCataloger
  | nix_NewStoreCataloger
  | php_NewComposerInstalledCataloger
  | php_NewComposerLockCataloger
  | portage_NewPortageCataloger
  | python_NewPythonIndexCataloger
  | python_NewPythonPackageCataloger
  | rpm_NewRpmDBCataloger
  | rpm_NewFileCataloger
  | ruby_NewGemFileLockCataloger
  | ruby_NewGemSpecCataloger
  | rust_NewCargoLockCataloger
  | rust_NewAuditBinaryCataloger
  | sbom_NewSBOMCataloger
  | swift_NewCocoapodsCataloger
  deriving DecidableEq

open CatalogerCall in
/-- The function `ImageCatalogers`. -/
def ImageCatalogers {J G : Type} (Name : CatalogerCall J G → GoString) (cfg : Config J G) :
    List (CatalogerCall J G) :=
  filterCatalogers Name [
    alpm_NewAlpmdbCataloger,
    ruby_NewGemSpecCataloger,
    python_NewPythonPackageCataloger,
    php_NewComposerInstalledCataloger,
    javascript_NewPackageCataloger,
    deb_NewDpkgdbCataloger,
    rpm_NewRpmDBCataloger,
    java_NewJavaCataloger cfg.Java,
    java_NewNativeImageCataloger,
    apkdb_NewApkdbCataloger,
    golang_NewGoModuleBinaryCataloger cfg.Go,
    dotnet_NewDotnetDepsCataloger,
    portage_NewPortageCataloger,
    nix_NewStoreCataloger,
    sbom_NewSBOMCataloger,
    binary_NewCataloger
  ] cfg.Catalogers

open CatalogerCall in
/-- The function `DirectoryCatalogers`. -/
def DirectoryCatalogers {J G : Type} (Name : CatalogerCall J G → GoString)
    (cfg : Config J G) : List (CatalogerCall J G) :=
  filterCatalogers Name [
    alpm_NewAlpmdbCataloger,
    ruby_NewGemFileLockCataloger,
    python_NewPythonIndexCataloger,
    python_NewPythonPackageCataloger,
    php_NewComposerLockCataloger,
    javascript_NewLockCataloger,
    deb_NewDpkgdbCataloger,
    rpm_NewRpmDBCataloger,
    rpm_NewFileCataloger,
    java_NewJavaCataloger cfg.Java,
    java_NewJavaPomCataloger,
    java_NewNativeImageCataloger,
    java_NewJavaGradleLockfileCataloger,
    apkdb_NewApkdbCataloger,
    golang_NewGoModuleBinaryCataloger cfg.Go,
    golang_NewGoModFileCataloger cfg.Go,
    rust_NewCargoLockCataloger,
    dart_NewPubspecLockCataloger,
    dotnet_NewDotnetDepsCataloger,
    swift_NewCocoapodsCataloger,
    cpp_NewConanCataloger,
    portage_NewPortageCataloger,
    haskell_NewHackageCataloger,
    sbom_NewSBOMCataloger,
    binary_NewCataloger,
    elixir_NewMixLockCataloger,
    erlang_NewRebarLockCataloger,
    nix_NewStoreCataloger
  ] cfg.Catalogers

open CatalogerCall in
/-- The function `AllCatalogers`. -/
def AllCatalogers {J G : Type} (Name : CatalogerCall J G → GoString) (cfg : Config J G) :
    List (CatalogerCall J G) :=
  filterCatalogers Name [
    alpm_NewAlpmdbCataloger,
    ruby_NewGemFileLockCataloger,
    ruby_NewGemSpecCataloger,
    python_NewPythonIndexCataloger,
    python_NewPythonPackageCataloger,
    javascript_NewLockCataloger,
    javascript_NewPackageCataloger,
    deb_NewDpkgdbCataloger,
    rpm_NewRpmDBCataloger,
    rpm_NewFileCataloger,
    java_NewJavaCataloger cfg.Java,
    java_NewJavaPomCataloger,
    java_NewNativeImageCataloger,
    java_NewJavaGradleLockfileCataloger,
    apkdb_NewApkdbCataloger,
    golang_NewGoModuleBinaryCataloger cfg.Go,
    golang_NewGoModFileCataloger cfg.Go,
    rust_NewCargoLockCataloger,
    rust_NewAuditBinaryCataloger,
    dart_NewPubspecLockCataloger,
    dotnet_NewDotnetDepsCataloger,
    php_NewComposerInstalledCataloger,
    php_NewComposerLockCataloger,
    swift_NewCocoapodsCataloger,
    cpp_NewConanCataloger,
    portage_NewPortageCataloger,
    haskell_NewHackageCataloger,
    sbom_NewSBOMCataloger,
    binary_NewCataloger,
    elixir_NewMixLockCataloger,
    erlang_NewRebarLockCataloger,
    nix_NewStoreCataloger
  ] cfg.Catalogers

/-- The function `RequestedAllCatalogers`. -/
def RequestedAllCatalogers {J G : Type} (cfg : Config J G) : Bool :=
  requestsAll cfg.Catalogers

/-- A configuration without patterns, over trivial child configurations. -/
def noPatterns : Config Unit Unit := { Catalogers := [], Java := (), Go := () }

/-- A naming of the catalogers for use where no pattern is configured and the names
are never read. -/
def unnamed : CatalogerCall Unit Unit → GoString := fun _ => str ""

/-! ## Package `sort` of the Go standard library -/

namespace sort

/-- What `sort.Interface` asks of `Less`: it reports whether one element must sort
before another and describes a transitive ordering, both where it holds and where it
does not. -/
structure TransitiveOrdering {α : Type} (less : α → α → Bool) : Prop where
  irrefl : ∀ a, less a a = false
  trans : ∀ a b c, less a b = true → less b c = true → less a c = true
  incomp : ∀ a b c, less a b = false → less b c = false → less a c = false

/-- `sort.SliceIsSorted`: no element is less than the one before it. -/
def SliceIsSorted {α : Type} (less : α → α → Bool) : List α → Bool
  | [] => true
  | [_] => true
  | a :: b :: l => !less b a && SliceIsSorted less (b :: l)

/-- The inner loop of `insertionSort_func`: `x` is swapped leftwards while it is less
than the element before it.  The sorted part is held last element first. -/
def sink {α : Type} (less : α → α → Bool) (x : α) : List α → List α
  | [] => [x]
  | y :: ys => if less x y then y :: sink less x ys else x :: y :: ys

/-- `insertionSort_func`: the whole of `sort.Slice` on a short slice (at most 12
elements in `pdqsort_func`). -/
def insertionSort_func {α : Type} (less : α → α → Bool) (data : List α) : List α :=
  (data.foldl (fun sortedPart x => sink less x sortedPart) []).reverse

/-- The contract of `sort.Slice`, which is not a stable sort: the slice is rearranged
(`perm`), and it ends up sorted when `less` is a transitive ordering (`sorted`).  How
elements that compare equal are arranged is left to the implementation `run`. -/
structure SliceSorter (α : Type) where
  run : (α → α → Bool) → List α → List α
  perm : ∀ less l, (run less l).Perm l
  sorted : ∀ less, TransitiveOrdering less → ∀ l, SliceIsSorted less (run less l) = true

/-- The contract of `sort.SliceStable`: that of `sort.Slice`, and elements that compare
equal (neither is less than the other) keep their original order (`stable`). -/
structure StableSorter (α : Type) extends SliceSorter α where
  stable : ∀ less, TransitiveOrdering less → ∀ l x,
    (run less l).filter (fun y => !less x y && !less y x)
      = l.filter (fun y => !less x y && !less y x)

end sort

/-! ## Go slices and maps -/

/-- A Go slice value: `nil`, or a sequence of elements, possibly none. -/
inductive Slice (α : Type) where
  | nil
  | mk (elems : List α)
  deriving DecidableEq

namespace Slice

/-- The elements of a slice; a `nil` slice has none. -/
def toList {α : Type} : Slice α → List α
  | nil => []
  | mk elems => elems

/-- The test `s == nil`. -/
def isNil {α : Type} : Slice α → Bool
  | nil => true
  | mk _ => false

end Slice

/-- A Go map, as the list of its entries in the order `range` visits them, an order
the runtime chooses; no key occurs twice. -/
abbrev GoMap (κ ν : Type) := List (κ × ν)

/-- The lookup `v, exists := m[k]`. -/
def lookup {κ ν : Type} [DecidableEq κ] (k : κ) : GoMap κ ν → Option ν
  | [] => none
  | (k', v) :: rest => if k' = k then some v else lookup k rest

/-! ## `syft/formats/syftjson/to_format_model.go` -/

namespace artifact

/-- The interface `artifact.Identifiable`, by what its method `ID()` returns. -/
structure Identifiable where
  ID : GoString
  deriving DecidableEq

/-- The struct `artifact.Relationship`; `δ` is the type of the payload `Data`. -/
structure Relationship (δ : Type) where
  From : Identifiable
  To : Identifiable
  Type_ : GoString
  Data : δ
  deriving DecidableEq

end artifact

namespace model

/-- The struct `model.Relationship`. -/
structure Relationship (δ : Type) where
  Parent : GoString
  Child : GoString
  Type_ : GoString
  Metadata : δ
  deriving DecidableEq

end model

/-- The body of the first loop of `toRelationshipModel`. -/
def toRelationship {δ : Type} (r : artifact.Relationship δ) : model.Relationship δ :=
  { Parent := r.From.ID, Child := r.To.ID, Type_ := r.Type_, Metadata := r.Data }

/-- The `less` closure that `toRelationshipModel` hands to `sort.Slice`. -/
def relationshipLess {δ : Type} (a b : model.Relationship δ) : Bool :=
  if a.Parent != b.Parent then decide (a.Parent < b.Parent)
  else if a.Child != b.Child then decide (a.Child < b.Child)
  else decide (a.Type_ < b.Type_)

/-- The function `toRelationshipModel`, over the `sort.Slice` in use. -/
def toRelationshipModel {δ : Type} (S : sort.SliceSorter (model.Relationship δ))
    (relationships : List (artifact.Relationship δ)) : List (model.Relationship δ) :=
  S.run relationshipLess (relationships.map toRelationship)

/-- The sort key of a relationship: `(Parent, Child, Type)` in lexicographic order. -/
def relationshipKey {δ : Type} (a : model.Relationship δ) :
    GoString ×ₗ GoString ×ₗ GoString :=
  toLex (a.Parent, toLex (a.Child, a.Type_))

/-- A relationship from artifact `p` to artifact `q` of type `contains`, carrying the
payload `data`. -/
def containsEdge (data : Nat) : artifact.Relationship Nat :=
  { From := { ID := str "p" }, To := { ID := str "q" }, Type_ := str "contains", Data := data }

/-- The order `(a.Parent, a.Child, a.Type) <= (b.Parent, b.Child, b.Type)`, spelled
out. -/
def keyLe {δ : Type} (a b : model.Relationship δ) : Prop :=
  a.Parent < b.Parent ∨
    (a.Parent = b.Parent ∧ (a.Child < b.Child ∨ (a.Child = b.Child ∧ a.Type_ ≤ b.Type_)))

namespace source

/-- The struct `source.Coordinates`. -/
structure Coordinates where
  RealPath : GoString
  FileSystemID : GoString
  deriving DecidableEq

end source

namespace model

set_option linter.dupNamespace false in
/-- The struct `model.Secrets`; `σ` is the type `[]file.SearchResult` of the values of
the secrets map. -/
structure Secrets (σ : Type) where
  Location : source.Coordinates
  Secrets : σ
  deriving DecidableEq

end model

namespace source

/-- The struct `source.Location`, without its unexported file reference, which none of
the functions below reads. -/
structure Location where
  Coordinates : source.Coordinates
  VirtualPath : GoString
  deriving DecidableEq

/-- The type `source.Scheme`, a string: the three constants that `toSourceModel`
names, distinct as the cases of a switch must be, and every other value. -/
inductive Scheme where
  | ImageScheme
  | DirectoryScheme
  | FileScheme
  | other (name : GoString)
  deriving DecidableEq

/-- The struct `source.ImageMetadata`: the two lists that `toSourceModel` touches, and
the remaining fields together as `rest`. -/
structure ImageMetadata (ι : Type) where
  RepoDigests : Slice GoString
  Tags : Slice GoString
  rest : ι
  deriving DecidableEq

/-- The struct `source.Metadata`, by the fields that `toSourceModel` reads. -/
structure Metadata (ι : Type) where
  ID : GoString
  Scheme : Scheme
  ImageMetadata : ImageMetadata ι
  Path : GoString
  deriving DecidableEq

end source

namespace stereoscopeFile

/-- The type `file.Type` of stereoscope: the constants that `toFileType` names, and
every other value. -/
inductive Type_ where
  | TypeRegular
  | TypeHardLink
  | TypeSymLink
  | TypeCharacterDevice
  | TypeBlockDevice
  | TypeDirectory
  | TypeFIFO
  | TypeSocket
  | TypeIrregular
  | other (n : Nat)
  deriving DecidableEq

end stereoscopeFile

namespace source

/-- The struct `source.FileMetadata`, by the fields that `toFileMetadataEntry` reads;
`Mode` is an `os.FileMode`, an unsigned 32-bit integer. -/
structure FileMetadata where
  Mode : Nat
  Type_ : stereoscopeFile.Type_
  UserID : Int
  GroupID : Int
  LinkDestination : GoString
  MIMEType : GoString
  deriving DecidableEq

end source

/-! ## Packages `fmt` and `strconv` of the Go standard library -/

namespace fmt

/-- The digit loop of `fmtInteger` in base 8: `for u >= 8 { buf[i] = '0' + u&7; u >>= 3 }`
and then the leading digit.  The first argument bounds the number of rounds. -/
def octalLoop : Nat → Nat → List Nat → List Nat
  | 0, u, buf => (48 + u) :: buf
  | fuel + 1, u, buf =>
    if u ≥ 8 then octalLoop fuel (u / 8) ((48 + u % 8) :: buf) else (48 + u) :: buf

/-- The call `fmt.Sprintf("%o", u)` on an unsigned integer: its octal digits. -/
def SprintfOctal (u : Nat) : GoString := octalLoop u u []

end fmt

namespace strconv

/-- The error kinds of `*strconv.NumError`. -/
inductive NumError where
  | ErrSyntax
  | ErrRange
  deriving DecidableEq

/-- `strconv.Atoi` where `int` is 64 bits wide: an optional sign and decimal digits;
`(0, ErrSyntax)` when there is no digit or another byte, and the nearest `int` with
`ErrRange` when the value does not fit. -/
def Atoi (s : GoString) : Int × Option NumError :=
  match s with
  | [] => (0, some NumError.ErrSyntax)
  | c :: rest =>
    let neg : Bool := c == 45
    let digits : GoString := if c == 45 || c == 43 then rest else s
    if digits.isEmpty || digits.any (fun ch => decide (ch < 48) || decide (57 < ch)) then
      (0, some NumError.ErrSyntax)
    else
      let n : Nat := digits.foldl (fun n ch => n * 10 + (ch - 48)) 0
      if neg then
        if n > 2 ^ 63 then (-(2 ^ 63 : Int), some NumError.ErrRange) else (-(n : Int), none)
      else
        if n ≥ 2 ^ 63 then ((2 ^ 63 : Int) - 1, some NumError.ErrRange) else ((n : Int), none)

end strconv

namespace model

/-- The struct `model.FileMetadataEntry`. -/
structure FileMetadataEntry where
  Mode : Int
  Type_ : GoString
  LinkDestination : GoString
  UserID : Int
  GroupID : Int
  MIMEType : GoString
  deriving DecidableEq

/-- The struct `model.File`; `ρ` is the type `file.Digest`. -/
structure File (ρ : Type) where
  ID : GoString
  Location : source.Coordinates
  Metadata : Option FileMetadataEntry
  Digests : Slice ρ
  Contents : GoString
  deriving DecidableEq

end model

/-- The function `toFileType`. -/
def toFileType (ty : stereoscopeFile.Type_) : GoString :=
  match ty with
  | .TypeSymLink => str "SymbolicLink"
  | .TypeHardLink => str "HardLink"
  | .TypeDirectory => str "Directory"
  | .TypeSocket => str "Socket"
  | .TypeBlockDevice => str "BlockDevice"
  | .TypeCharacterDevice => str "CharacterDevice"
  | .TypeFIFO => str "FIFONode"
  | .TypeRegular => str "RegularFile"
  | .TypeIrregular => str "IrregularFile"
  | .other _ => str "Unknown"

/-- The function `toFileMetadataEntry`; a `nil` pointer is `none`.  The warning that the
error branch logs is left out. -/
def toFileMetadataEntry (_coordinates : source.Coordinates)
    (metadata : Option source.FileMetadata) : Option model.FileMetadataEntry :=
  match metadata with
  | none => none
  | some metadata =>
    let parsed := strconv.Atoi (fmt.SprintfOctal metadata.Mode)
    let mode : Int := if parsed.2.isSome then 0 else parsed.1
    some
      { Mode := mode
        Type_ := toFileType metadata.Type_
        LinkDestination := metadata.LinkDestination
        UserID := metadata.UserID
        GroupID := metadata.GroupID
        MIMEType := metadata.MIMEType }

/-- The `less` closure that `toFile` hands to `sort.SliceStable`. -/
def fileLess {ρ : Type} (a b : model.File ρ) : Bool :=
  decide (a.Location.RealPath < b.Location.RealPath)

namespace pkg

/-- The struct `pkg.Package`, by what `toPackageModel` reads of it: `id` is the value
of `p.ID()`, `Locations` that of `p.Locations.ToSlice()`; `δ` is the type of the
values of `interface{}` fields and `γ` the type `cpe.CPE`. -/
structure Package (δ γ : Type) where
  id : GoString
  Name : GoString
  Version : GoString
  Type_ : GoString
  FoundBy : GoString
  Locations : List source.Location
  Licenses : Slice GoString
  Language : GoString
  CPEs : Slice γ
  PURL : GoString
  MetadataType : GoString
  Metadata : δ
  deriving DecidableEq

end pkg

namespace model

/-- The struct `model.PackageBasicData`. -/
structure PackageBasicData where
  ID : GoString
  Name : GoString
  Version : GoString
  Type_ : GoString
  FoundBy : GoString
  Locations : Slice source.Coordinates
  Licenses : Slice GoString
  Language : GoString
  CPEs : Slice GoString
  PURL : GoString
  deriving DecidableEq

/-- The struct `model.PackageCustomData`. -/
structure PackageCustomData (δ : Type) where
  MetadataType : GoString
  Metadata : δ
  deriving DecidableEq

/-- The struct `model.Package`. -/
structure Package (δ : Type) where
  PackageBasicData : PackageBasicData
  PackageCustomData : PackageCustomData δ
  deriving DecidableEq

end model

/-- The function `toPackageModel`; `cpeString` is `cpe.String`. -/
def toPackageModel {δ γ : Type} (cpeString : γ → GoString) (p : pkg.Package δ γ) :
    model.Package δ :=
  let cpes : Slice GoString := Slice.mk (p.CPEs.toList.map cpeString)
  let licenses : Slice GoString :=
    if p.Licenses.isNil then Slice.mk [] else p.Licenses
  let locations := p.Locations
  let coordinates : Slice source.Coordinates := Slice.mk (locations.map fun l => l.Coordinates)
  { PackageBasicData :=
      { ID := p.id
        Name := p.Name
        Version := p.Version
        Type_ := p.Type_
        FoundBy := p.FoundBy
        Locations := coordinates
        Licenses := licenses
        Language := p.Language
        CPEs := cpes
        PURL := p.PURL }
    PackageCustomData :=
      { MetadataType := p.MetadataType
        Metadata := p.Metadata } }

/-- The function `toPackageModels`; a `nil` catalog is `none`, and `Sorted` is the
method `catalog.Sorted()` of the catalog type `κ`. -/
def toPackageModels {δ γ κ : Type} (cpeString : γ → GoString)
    (Sorted : κ → List (pkg.Package δ γ)) (catalog : Option κ) : Slice (model.Package δ) :=
  let artifacts : List (model.Package δ) := []
  match catalog with
  | none => Slice.mk artifacts
  | some catalog =>
    Slice.mk
      ((Sorted catalog).foldl (fun artifacts p => artifacts ++ [toPackageModel cpeString p])
        artifacts)

namespace linux

/-- The struct `linux.Release`. -/
structure Release where
  PrettyName : GoString
  Name : GoString
  ID : GoString
  IDLike : Slice GoString
  Version : GoString
  VersionID : GoString
  VersionCodename : GoString
  BuildID : GoString
  ImageID : GoString
  ImageVersion : GoString
  Variant : GoString
  VariantID : GoString
  HomeURL : GoString
  SupportURL : GoString
  BugReportURL : GoString
  PrivacyPolicyURL : GoString
  CPEName : GoString
  SupportEnd : GoString
  deriving DecidableEq

end linux

namespace model

/-- The struct `model.LinuxRelease`. -/
structure LinuxRelease where
  PrettyName : GoString
  Name : GoString
  ID : GoString
  IDLike : Slice GoString
  Version : GoString
  VersionID : GoString
  VersionCodename : GoString
  BuildID : GoString
  ImageID : GoString
  ImageVersion : GoString
  Variant : GoString
  VariantID : GoString
  HomeURL : GoString
  SupportURL : GoString
  BugReportURL : GoString
  PrivacyPolicyURL : GoString
  CPEName : GoString
  SupportEnd : GoString
  deriving DecidableEq

/-- The struct `model.Descriptor`. -/
structure Descriptor (δ : Type) where
  Name : GoString
  Version : GoString
  Configuration : δ
  deriving DecidableEq

/-- The struct `model.Schema`. -/
structure Schema where
  Version : GoString
  URL : GoString
  deriving DecidableEq

/-- The values of the `interface{}` field `Target` of `model.Source`: `nil`, an image
metadata, or a path. -/
inductive Target (ι : Type) where
  | nil
  | image (metadata : source.ImageMetadata ι)
  | path (p : GoString)
  deriving DecidableEq

/-- The struct `model.Source`. -/
structure Source (ι : Type) where
  ID : GoString
  Type_ : GoString
  Target : Target ι
  deriving DecidableEq

/-- The zero value `model.Source{}`. -/
def Source.zero (ι : Type) : Source ι := { ID := str "", Type_ := str "", Target := Target.nil }

/-- The zero value `model.LinuxRelease{}`. -/
def LinuxRelease.zero : LinuxRelease :=
  { PrettyName := str "", Name := str "", ID := str "", IDLike := Slice.nil, Version := str "",
    VersionID := str "", VersionCodename := str "", BuildID := str "", ImageID := str "",
    ImageVersion := str "", Variant := str "", VariantID := str "", HomeURL := str "",
    SupportURL := str "", BugReportURL := str "", PrivacyPolicyURL := str "",
    CPEName := str "", SupportEnd := str "" }

end model

/-- The function `toLinuxReleaser`; a `nil` pointer is `none`. -/
def toLinuxReleaser (d : Option linux.Release) : model.LinuxRelease :=
  match d with
  | none => model.LinuxRelease.zero
  | some d =>
    { PrettyName := d.PrettyName
      Name := d.Name
      ID := d.ID
      IDLike := d.IDLike
      Version := d.Version
      VersionID := d.VersionID
      VersionCodename := d.VersionCodename
      BuildID := d.BuildID
      ImageID := d.ImageID
      ImageVersion := d.ImageVersion
      Variant := d.Variant
      VariantID := d.VariantID
      HomeURL := d.HomeURL
      SupportURL := d.SupportURL
      BugReportURL := d.BugReportURL
      PrivacyPolicyURL := d.PrivacyPolicyURL
      CPEName := d.CPEName
      SupportEnd := d.SupportEnd }

namespace sbom

/-- The struct `sbom.Descriptor`. -/
structure Descriptor (δ : Type) where
  Name : GoString
  Version : GoString
  Configuration : δ
  deriving DecidableEq

/-- The struct `sbom.Artifacts`, by the fields that `ToFormatModel` reads; `κ` is the
type `pkg.Catalog`. -/
structure Artifacts (σ ρ κ : Type) where
  PackageCatalog : Option κ
  FileMetadata : GoMap source.Coordinates source.FileMetadata
  FileDigests : GoMap source.Coordinates (Slice ρ)
  FileContents : GoMap source.Coordinates GoString
  Secrets : GoMap source.Coordinates σ
  LinuxDistribution : Option linux.Release

/-- The struct `sbom.SBOM`. -/
structure SBOM (δ σ ρ κ ι : Type) where
  Artifacts : Artifacts σ ρ κ
  Relationships : List (artifact.Relationship δ)
  Source : source.Metadata ι
  Descriptor : Descriptor δ

end sbom

/-- The function `toDescriptor`. -/
def toDescriptor {δ : Type} (d : sbom.Descriptor δ) : model.Descriptor δ :=
  { Name := d.Name, Version := d.Version, Configuration := d.Configuration }

/-- The error that `toSourceModel` builds with `fmt.Errorf("unsupported source: %q", ...)`,
by the scheme it reports. -/
structure UnsupportedSource where
  scheme : source.Scheme
  deriving DecidableEq

/-- The function `toSourceModel`: the pair of its two results, the error `nil` being
`none`. -/
def toSourceModel {ι : Type} (src : source.Metadata ι) :
    model.Source ι × Option UnsupportedSource :=
  match src.Scheme with
  | .ImageScheme =>
    let metadata := src.ImageMetadata
    let metadata : source.ImageMetadata ι :=
      if metadata.RepoDigests.isNil then { metadata with RepoDigests := Slice.mk [] }
      else metadata
    let metadata : source.ImageMetadata ι :=
      if metadata.Tags.isNil then { metadata with Tags := Slice.mk [] } else metadata
    ({ ID := src.ID, Type_ := str "image", Target := model.Target.image metadata }, none)
  | .DirectoryScheme =>
    ({ ID := src.ID, Type_ := str "directory", Target := model.Target.path src.Path }, none)
  | .FileScheme =>
    ({ ID := src.ID, Type_ := str "file", Target := model.Target.path src.Path }, none)
  | .other name => (model.Source.zero ι, some { scheme := .other name })

/-- The function `toFile`, over the `sort.SliceStable` in use; `coordinatesID` is the
method `Coordinates.ID()` and `AllCoordinates` the method `s.AllCoordinates()`. -/
def toFile {δ σ ρ κ ι : Type} (S : sort.StableSorter (model.File ρ))
    (coordinatesID : source.Coordinates → GoString)
    (AllCoordinates : sbom.SBOM δ σ ρ κ ι → List source.Coordinates)
    (s : sbom.SBOM δ σ ρ κ ι) : Slice (model.File ρ) :=
  let artifacts := s.Artifacts
  let results : List (model.File ρ) :=
    (AllCoordinates s).foldl
      (fun results coordinates =>
        let metadata : Option source.FileMetadata := lookup coordinates artifacts.FileMetadata
        let digests : Slice ρ :=
          match lookup coordinates artifacts.FileDigests with
          | some digestsForLocation => digestsForLocation
          | none => Slice.nil
        let contents : GoString :=
          match lookup coordinates artifacts.FileContents with
          | some contentsForLocation => contentsForLocation
          | none => str ""
        results ++
          [{ ID := coordinatesID coordinates
             Location := coordinates
             Metadata := toFileMetadataEntry coordinates metadata
             Digests := digests
             Contents := contents }])
      []
  Slice.mk (S.run fileLess results)

/-- The `less` closure that `toSecrets` hands to `sort.SliceStable`. -/
def secretsLess {σ : Type} (a b : model.Secrets σ) : Bool :=
  decide (a.Location.RealPath < b.Location.RealPath)

/-- The function `toSecrets`, over the `sort.SliceStable` in use. -/
def toSecrets {σ : Type} (S : sort.StableSorter (model.Secrets σ))
    (data : GoMap source.Coordinates σ) : Slice (model.Secrets σ) :=
  let results : List (model.Secrets σ) :=
    data.foldl
      (fun results entry => results ++ [{ Location := entry.1, Secrets := entry.2 }])
      []
  Slice.mk (S.run secretsLess results)

/-- The source of an image without tags and repository digests: both lists are `nil`. -/
def untaggedImage : source.Metadata Unit :=
  { ID := str "sha256:1", Scheme := source.Scheme.ImageScheme,
    ImageMetadata := { RepoDigests := Slice.nil, Tags := Slice.nil, rest := () },
    Path := str "" }

/-- Two secrets found at the same path in two layers of an image: the entries of one
secrets map, in one order of enumeration. -/
def layeredSecrets : GoMap source.Coordinates Nat :=
  [({ RealPath := str "/etc/passwd", FileSystemID := str "layer-1" }, 1),
   ({ RealPath := str "/etc/passwd", FileSystemID := str "layer-2" }, 2)]

namespace model

/-- The struct `model.Document`. -/
structure Document (δ σ ρ ι : Type) where
  Artifacts : Slice (Package δ)
  ArtifactRelationships : Slice (Relationship δ)
  Files : Slice (File ρ)
  Secrets : Slice (Secrets σ)
  Source : Source ι
  Distro : LinuxRelease
  Descriptor : Descriptor δ
  Schema : Schema

end model

/-- What `ToFormatModel` uses of the packages that are not translated here: the sorts
of the standard library, `cpe.String`, `catalog.Sorted()`, `Coordinates.ID()`,
`s.AllCoordinates()` and the constant `internal.JSONSchemaVersion`. -/
structure Externals (δ σ ρ γ κ ι : Type) where
  sortRelationships : sort.SliceSorter (model.Relationship δ)
  sortFiles : sort.StableSorter (model.File ρ)
  sortSecrets : sort.StableSorter (model.Secrets σ)
  cpeString : γ → GoString
  Sorted : κ → List (pkg.Package δ γ)
  coordinatesID : source.Coordinates → GoString
  AllCoordinates : sbom.SBOM δ σ ρ κ ι → List source.Coordinates
  JSONSchemaVersion : GoString

/-- The function `ToFormatModel`.  The error of `toSourceModel` is only logged; the
warning is left out.  `make([]model.Relationship, n)` is never `nil`. -/
def ToFormatModel {δ σ ρ γ κ ι : Type} (X : Externals δ σ ρ γ κ ι)
    (s : sbom.SBOM δ σ ρ κ ι) : model.Document δ σ ρ ι :=
  let src := (toSourceModel s.Source).1
  { Artifacts := toPackageModels X.cpeString X.Sorted s.Artifacts.PackageCatalog
    ArtifactRelationships := Slice.mk (toRelationshipModel X.sortRelationships s.Relationships)
    Files := toFile X.sortFiles X.coordinatesID X.AllCoordinates s
    Secrets := toSecrets X.sortSecrets s.Artifacts.Secrets
    Source := src
    Distro := toLinuxReleaser s.Artifacts.LinuxDistribution
    Descriptor := toDescriptor s.Descriptor
    Schema :=
      { Version := X.JSONSchemaVersion
        URL :=
          str "https://raw.githubusercontent.com/anchore/syft/main/schema/json/schema-"
            ++ X.JSONSchemaVersion ++ str ".json" } }

/-- The SBOM `s` with the scheme of its source replaced. -/
def withScheme {δ σ ρ κ ι : Type} (s : sbom.SBOM δ σ ρ κ ι) (scheme : source.Scheme) :
    sbom.SBOM δ σ ρ κ ι :=
  { s with Source := { s.Source with Scheme := scheme } }

/-! ## `schema/json/generate.go` -/

/-- An entry of the working directory: a regular file with its bytes and whether the
process may open it for reading, or a directory. -/
inductive Entry where
  | file (bytes : List Nat) (readable : Bool)
  | directory
  deriving DecidableEq

/-- The working directory: the entry of each name that exists. -/
abbrev FileSystem := GoString → Option Entry

/-- The file system with the entry of one name set. -/
def FileSystem.set (fs : FileSystem) (name : GoString) (entry : Entry) : FileSystem :=
  fun other => if other = name then some entry else fs other

namespace os

/-- The errors of the file operations used by `write`. -/
inductive PathError where
  | ErrNotExist
  | ErrPermission
  | ErrIsDirectory
  | ErrIO
  deriving DecidableEq

/-- The failures of the operating system during one run that the entries of the
working directory do not determine: `os.Stat` fails with an error other than "not
exist", `os.Open` fails, reading the opened file fails, `os.Create` fails, and the
write to the created file fails after `failWrite` bytes. -/
structure Faults where
  failStat : Bool
  failOpen : Bool
  failRead : Bool
  failCreate : Bool
  failWrite : Option Nat
  deriving DecidableEq

/-- A run in which no operation fails for a reason outside the working directory. -/
def noFaults : Faults :=
  { failStat := false, failOpen := false, failRead := false, failCreate := false,
    failWrite := none }

/-- The open file `*os.File`, by the name it was opened with. -/
structure File where
  name : GoString
  deriving DecidableEq

/-- `os.Stat`, by its error: `nil` when the name exists. -/
def Stat (faults : Faults) (fs : FileSystem) (name : GoString) : Option PathError :=
  if faults.failStat then some PathError.ErrPermission
  else if (fs name).isSome then none
  else some PathError.ErrNotExist

/-- `os.IsNotExist`. -/
def IsNotExist (err : Option PathError) : Bool := err == some PathError.ErrNotExist

/-- `os.Open`: the name is opened for reading; a directory can be opened, a file that
the process may not read cannot. -/
def Open (faults : Faults) (fs : FileSystem) (name : GoString) : Except PathError File :=
  match fs name with
  | none => Except.error PathError.ErrNotExist
  | some (Entry.file _ false) => Except.error PathError.ErrPermission
  | some (Entry.file _ true) =>
    if faults.failOpen then Except.error PathError.ErrIO else Except.ok { name := name }
  | some Entry.directory =>
    if faults.failOpen then Except.error PathError.ErrIO else Except.ok { name := name }

/-- `os.Create`: the name is opened with `O_RDWR|O_CREATE|O_TRUNC`; a file that does
not exist is created empty, an existing file is truncated, a directory is refused.
The file system is the one given when the call fails. -/
def Create (faults : Faults) (fs : FileSystem) (name : GoString) :
    Except PathError (FileSystem × File) :=
  if faults.failCreate then Except.error PathError.ErrPermission
  else
    match fs name with
    | none => Except.ok (fs.set name (Entry.file [] true), { name := name })
    | some (Entry.file _ true) =>
      Except.ok (fs.set name (Entry.file [] true), { name := name })
    | some (Entry.file _ false) => Except.error PathError.ErrPermission
    | some Entry.directory => Except.error PathError.ErrIsDirectory

/-- The method `Write` of an open file whose offset is the end of the file: the file
system afterwards and the error.  A failing write leaves the bytes it wrote before the
failure in the file. -/
def File.Write (faults : Faults) (fs : FileSystem) (fh : File) (b : List Nat) :
    FileSystem × Option PathError :=
  match fs fh.name with
  | some (Entry.file bytes readable) =>
    match faults.failWrite with
    | some n => (fs.set fh.name (Entry.file (bytes ++ b.take n) readable), some PathError.ErrIO)
    | none => (fs.set fh.name (Entry.file (bytes ++ b) readable), none)
  | some Entry.directory => (fs, some PathError.ErrIsDirectory)
  | none => (fs, some PathError.ErrNotExist)

end os

namespace io

/-- `io.ReadAll` on an open file: all the bytes of a regular file; a directory cannot
be read. -/
def ReadAll (faults : os.Faults) (fs : FileSystem) (fh : os.File) :
    Except os.PathError (List Nat) :=
  match fs fh.name with
  | some (Entry.file bytes _) =>
    if faults.failRead then Except.error os.PathError.ErrIO else Except.ok bytes
  | some Entry.directory => Except.error os.PathError.ErrIsDirectory
  | none => Except.error os.PathError.ErrNotExist

end io

/-- How a run of the generator ends: it returns from `write` (and `main` ends with
status 0), it calls `os.Exit(code)`, or it panics (the process ends with status 2). -/
inductive Outcome where
  | returned
  | exit (code : Int)
  | panic
  deriving DecidableEq

/-- The name `fmt.Sprintf("schema-%s.json", internal.JSONSchemaVersion)` of the schema
file. -/
def schemaFilename (JSONSchemaVersion : GoString) : GoString :=
  str "schema-" ++ JSONSchemaVersion ++ str ".json"

/-- The function `write`: the file system it leaves and how it ends.  What it prints
is left out; `JSONSchemaVersion` is the constant `internal.JSONSchemaVersion`, and
`faults` says which operations fail for a reason outside the working directory. -/
def write (JSONSchemaVersion : GoString) (schema : List Nat) (faults : os.Faults)
    (fs : FileSystem) : FileSystem × Outcome :=
  let filename := schemaFilename JSONSchemaVersion
  if !os.IsNotExist (os.Stat faults fs filename) then
    match os.Open faults fs filename with
    | Except.error _ => (fs, Outcome.panic)
    | Except.ok existingFh =>
      match io.ReadAll faults fs existingFh with
      | Except.error _ => (fs, Outcome.panic)
      | Except.ok existingSchemaBytes =>
        if existingSchemaBytes == schema then (fs, Outcome.exit 0)
        else (fs, Outcome.exit 1)
  else
    match os.Create faults fs filename with
    | Except.error _ => (fs, Outcome.panic)
    | Except.ok (fs, fh) =>
      match os.File.Write faults fs fh schema with
      | (fs, some _) => (fs, Outcome.panic)
      | (fs, none) => (fs, Outcome.returned)

/-- A working directory whose only entry is the schema file of version `7.1.1`, which
holds the bytes `true` and which the process may not read. -/
def unreadableSchemaFile : FileSystem :=
  fun name =>
    if name = schemaFilename (str "7.1.1") then some (Entry.file (str "true") false) else none

/-- A working directory whose only entry is the schema file of version `7.1.1`, which
holds the bytes `true` and which the process may read. -/
def readableSchemaFile : FileSystem :=
  fun name =>
    if name = schemaFilename (str "7.1.1") then some (Entry.file (str "true") true) else none

/-- The empty working directory. -/
def emptyDirectory : FileSystem := fun _ => none

/-- A run in which the write to the created file fails after one byte. -/
def shortWrite : os.Faults :=
  { failStat := false, failOpen := false, failRead := false, failCreate := false,
    failWrite := some 1 }

/-! ## `syft/source`: the excluding resolver -/

namespace source

/-- The zero value `FileMetadata{}`. -/
def FileMetadata.zero : FileMetadata :=
  { Mode := 0, Type_ := stereoscopeFile.Type_.TypeRegular, UserID := 0, GroupID := 0,
    LinkDestination := str "", MIMEType := str "" }

/-- The errors of a resolver. -/
inductive ResolverError where
  | NotFound
  | other (message : GoString)
  deriving DecidableEq

/-- The interface `FileResolver`, with the methods that `mockResolver` implements; `φ`
is the type of an open file (`io.ReadCloser`), a `nil` result is `none`, and the
channel of `AllLocations` is the list of what it delivers. -/
structure FileResolver (φ : Type) where
  FileContentsByLocation : Location → Option φ × Option ResolverError
  FileMetadataByLocation : Location → FileMetadata × Option ResolverError
  HasPath : GoString → Bool
  FilesByPath : List GoString → List Location × Option ResolverError
  FilesByGlob : List GoString → List Location × Option ResolverError
  FilesByMIMEType : List GoString → List Location × Option ResolverError
  FilesByExtension : List GoString → List Location × Option ResolverError
  FilesByBasename : List GoString → List Location × Option ResolverError
  FilesByBasenameGlob : List GoString → List Location × Option ResolverError
  RelativeFileByPath : Location → GoString → Option Location
  AllLocations : List Location

/-- Modelled from the spec: the filter of the excluding resolver, whose source file
`excluding_file_resolver.go` is missing.  Every returned location whose `RealPath`
satisfies `excludeFn` is dropped. -/
def filterLocations (excludeFn : GoString → Bool)
    (result : List Location × Option ResolverError) : List Location × Option ResolverError :=
  (result.1.filter (fun l => !excludeFn l.Coordinates.RealPath), result.2)

/-- Modelled from the spec: the constructor `NewExcludingResolver` and the methods of
the excluding resolver, whose source file `excluding_file_resolver.go` is missing.
Every query calls through to the wrapped resolver and drops every returned location
whose `RealPath` satisfies `excludeFn`; `HasPath` checks the exclusion first and
answers false before delegating; `FileContentsByLocation` and
`FileMetadataByLocation` check the exclusion before delegating and fail with
`NotFound` for an excluded path; `AllLocations` filters element by element. -/
def NewExcludingResolver {φ : Type} (delegate : FileResolver φ)
    (excludeFn : GoString → Bool) : FileResolver φ where
  FileContentsByLocation location :=
    if excludeFn location.Coordinates.RealPath then (none, some ResolverError.NotFound)
    else delegate.FileContentsByLocation location
  FileMetadataByLocation location :=
    if excludeFn location.Coordinates.RealPath then
      (FileMetadata.zero, some ResolverError.NotFound)
    else delegate.FileMetadataByLocation location
  HasPath path := if excludeFn path then false else delegate.HasPath path
  FilesByPath paths := filterLocations excludeFn (delegate.FilesByPath paths)
  FilesByGlob patterns := filterLocations excludeFn (delegate.FilesByGlob patterns)
  FilesByMIMEType types := filterLocations excludeFn (delegate.FilesByMIMEType types)
  FilesByExtension extensions := filterLocations excludeFn (delegate.FilesByExtension extensions)
  FilesByBasename filenames := filterLocations excludeFn (delegate.FilesByBasename filenames)
  FilesByBasenameGlob globs := filterLocations excludeFn (delegate.FilesByBasenameGlob globs)
  RelativeFileByPath location path :=
    match delegate.RelativeFileByPath location path with
    | none => none
    | some l => if excludeFn l.Coordinates.RealPath then none else some l
  AllLocations := delegate.AllLocations.filter (fun l => !excludeFn l.Coordinates.RealPath)

/-- The function `makeLocation` of the test. -/
def makeLocation (path : GoString) : Location :=
  { Coordinates := { RealPath := path, FileSystemID := str "" }, VirtualPath := str "" }

/-- The `mockResolver` of the test, over the paths `locations`. -/
def mockResolver (locations : List GoString) : FileResolver GoString where
  FileContentsByLocation _ := (some (str "Hello, world!"), none)
  FileMetadataByLocation _ := ({ FileMetadata.zero with LinkDestination := str "MOCK" }, none)
  HasPath _ := true
  FilesByPath _ := (locations.map makeLocation, none)
  FilesByGlob _ := (locations.map makeLocation, none)
  FilesByMIMEType _ := (locations.map makeLocation, none)
  FilesByExtension _ := (locations.map makeLocation, none)
  FilesByBasename _ := (locations.map makeLocation, none)
  FilesByBasenameGlob _ := (locations.map makeLocation, none)
  RelativeFileByPath _ path :=
    some { Coordinates := { RealPath := path, FileSystemID := str "" }, VirtualPath := str "" }
  AllLocations := locations.map makeLocation

/-- A resolver like the mock, except that it resolves every relative path below the
directory `/app`: the location it returns for `path` has the real path `/app/` + `path`. -/
def rootedResolver (locations : List GoString) : FileResolver GoString :=
  { mockResolver locations with
    RelativeFileByPath := fun _ path =>
      some { Coordinates := { RealPath := str "/app/" ++ path, FileSystemID := str "" },
             VirtualPath := str "" } }

end source

/-! ## `syft/pkg/type.go` -/

namespace pkg

/-- The type `pkg.Type`, a string. -/
abbrev Type_ := GoString

def UnknownPkg : Type_ := str "UnknownPackage"
def AlpmPkg : Type_ := str "alpm"
def ApkPkg : Type_ := str "apk"
def BinaryPkg : Type_ := str "binary"
def CocoapodsPkg : Type_ := str "pod"
def ConanPkg : Type_ := str "conan"
def DartPubPkg : Type_ := str "dart-pub"
def DebPkg : Type_ := str "deb"
def DotnetPkg : Type_ := str "dotnet"
def GemPkg : Type_ := str "gem"
def GoModulePkg : Type_ := str "go-module"
def GraalVMNativeImagePkg : Type_ := str "graalvm-native-image"
def HackagePkg : Type_ := str "hackage"
def HexPkg : Type_ := str "hex"
def JavaPkg : Type_ := str "java-archive"
def JenkinsPluginPkg : Type_ := str "jenkins-plugin"
def KbPkg : Type_ := str "msrc-kb"
def NixPkg : Type_ := str "nix"
def NpmPkg : Type_ := str "npm"
def PhpComposerPkg : Type_ := str "php-composer"
def PortagePkg : Type_ := str "portage"
def PythonPkg : Type_ := str "python"
def RpmPkg : Type_ := str "rpm"
def RustPkg : Type_ := str "rust-crate"

/-- The constants of the const block headed `the full set of supported packages`, in
the order of their declaration. -/
def declaredTypes : List Type_ :=
  [UnknownPkg, AlpmPkg, ApkPkg, BinaryPkg, CocoapodsPkg, ConanPkg, DartPubPkg, DebPkg,
   DotnetPkg, GemPkg, GoModulePkg, GraalVMNativeImagePkg, HackagePkg, HexPkg, JavaPkg,
   JenkinsPluginPkg, KbPkg, NixPkg, NpmPkg, PhpComposerPkg, PortagePkg, PythonPkg, RpmPkg,
   RustPkg]

/-- The variable `AllPkgs`. -/
def AllPkgs : List Type_ :=
  [AlpmPkg, ApkPkg, BinaryPkg, CocoapodsPkg, ConanPkg, DartPubPkg, DebPkg, DotnetPkg, GemPkg,
   GoModulePkg, HackagePkg, HexPkg, JavaPkg, JenkinsPluginPkg, KbPkg, NixPkg, NpmPkg,
   PhpComposerPkg, PortagePkg, PythonPkg, RpmPkg, RustPkg]

end pkg

/-! ## Package `packageurl` -/

namespace packageurl

/-- The constants of package `packageurl` that `type.go` names.  Their values are
declared in that package and are taken as given. -/
structure Types where
  TypeAlpine : GoString
  TypeCocoapods : GoString
  TypeComposer : GoString
  TypeConan : GoString
  TypeDebian : GoString
  TypeDotnet : GoString
  TypeGem : GoString
  TypeGolang : GoString
  TypeHackage : GoString
  TypeHex : GoString
  TypeMaven : GoString
  TypeNPM : GoString
  TypePub : GoString
  TypePyPi : GoString
  TypeRPM : GoString

/-- The struct `packageurl.PackageURL`, by the field that `TypeFromPURL` reads. -/
structure PackageURL where
  Type_ : GoString

/-- The purl type names as one assignment of the constants. -/
def purlTypes : Types where
  TypeAlpine := str "apk"
  TypeCocoapods := str "cocoapods"
  TypeComposer := str "composer"
  TypeConan := str "conan"
  TypeDebian := str "deb"
  TypeDotnet := str "dotnet"
  TypeGem := str "gem"
  TypeGolang := str "golang"
  TypeHackage := str "hackage"
  TypeHex := str "hex"
  TypeMaven := str "maven"
  TypeNPM := str "npm"
  TypePub := str "pub"
  TypePyPi := str "pypi"
  TypeRPM := str "rpm"

end packageurl

namespace pkg

/-- The method `Type.PackageURLType`, over the constants `P` of package `packageurl`. -/
def PackageURLType (P : packageurl.Types) (t : Type_) : GoString :=
  if t = AlpmPkg then str "alpm"
  else if t = ApkPkg then P.TypeAlpine
  else if t = CocoapodsPkg then P.TypeCocoapods
  else if t = ConanPkg then P.TypeConan
  else if t = DartPubPkg then P.TypePub
  else if t = DebPkg then str "deb"
  else if t = DotnetPkg then P.TypeDotnet
  else if t = GemPkg then P.TypeGem
  else if t = HexPkg then P.TypeHex
  else if t = GoModulePkg then P.TypeGolang
  else if t = HackagePkg then P.TypeHackage
  else if t = JavaPkg ∨ t = JenkinsPluginPkg then P.TypeMaven
  else if t = PhpComposerPkg then P.TypeComposer
  else if t = PythonPkg then P.TypePyPi
  else if t = PortagePkg then str "portage"
  else if t = NixPkg then str "nix"
  else if t = NpmPkg then P.TypeNPM
  else if t = RpmPkg then P.TypeRPM
  else if t = RustPkg then str "cargo"
  else str ""

/-- The function `TypeByName`, over the constants `P` of package `packageurl`; the
cases of the switch are tried in their order. -/
def TypeByName (P : packageurl.Types) (name : GoString) : Type_ :=
  if name = P.TypeDebian then DebPkg
  else if name = P.TypeRPM then RpmPkg
  else if name = str "alpm" then AlpmPkg
  else if name = P.TypeAlpine ∨ name = str "alpine" then ApkPkg
  else if name = P.TypeMaven then JavaPkg
  else if name = P.TypeComposer then PhpComposerPkg
  else if name = P.TypeGolang then GoModulePkg
  else if name = P.TypeNPM then NpmPkg
  else if name = P.TypePyPi then PythonPkg
  else if name = P.TypeGem then GemPkg
  else if name = str "cargo" ∨ name = str "crate" then RustPkg
  else if name = P.TypePub then DartPubPkg
  else if name = P.TypeDotnet then DotnetPkg
  else if name = P.TypeCocoapods then CocoapodsPkg
  else if name = P.TypeConan then ConanPkg
  else if name = P.TypeHackage then HackagePkg
  else if name = str "portage" then PortagePkg
  else if name = P.TypeHex then HexPkg
  else if name = str "nix" then NixPkg
  else UnknownPkg

/-- The PURL type names that `TypeByName` recognises: the labels of its cases, in the
order of the switch. -/
def recognisedNames (P : packageurl.Types) : List GoString :=
  [P.TypeDebian, P.TypeRPM, str "alpm", P.TypeAlpine, str "alpine", P.TypeMaven,
   P.TypeComposer, P.TypeGolang, P.TypeNPM, P.TypePyPi, P.TypeGem, str "cargo", str "crate",
   P.TypePub, P.TypeDotnet, P.TypeCocoapods, P.TypeConan, P.TypeHackage, str "portage",
   P.TypeHex, str "nix"]

/-- The function `TypeFromPURL`; `FromString` is `packageurl.FromString`, which returns
the parsed PURL or an error. -/
def TypeFromPURL {ε : Type} (P : packageurl.Types)
    (FromString : GoString → Except ε packageurl.PackageURL) (p : GoString) : Type_ :=
  match FromString p with
  | Except.error _ => UnknownPkg
  | Except.ok purl => TypeByName P purl.Type_

end pkg

/-- The part of `build` that computes the `anyOf` list of `Package.metadata` from the
definitions of the metadata schema (a map from name to definition) over the sort in
use: the names are collected, sorted with `sort.Strings`, and turned into entries
after the entry for `null`.  An entry is a `map[string]string`. -/
def metadataTypes {ν : Type} (S : sort.SliceSorter GoString) (definitions : GoMap GoString ν) :
    List (GoMap GoString GoString) :=
  let metadataNames : List GoString :=
    definitions.foldl
      (fun metadataNames entry =>
        if entry.1 = str "artifactMetadataContainer" then metadataNames
        else if strings.HasSuffix entry.1 (str "Metadata") then metadataNames ++ [entry.1]
        else metadataNames)
      []
  let metadataNames := S.run (fun a b => decide (a < b)) metadataNames
  let metadataTypes : List (GoMap GoString GoString) := [[(str "type", str "null")]]
  metadataNames.foldl
    (fun metadataTypes name => metadataTypes ++ [[(str "$ref", str "#/$defs/" ++ name)]])
    metadataTypes

/-- Definitions of a metadata schema, as `range` might enumerate them: the container,
two metadata shapes and a type that is no metadata. -/
def sampleDefinitions : GoMap GoString Nat :=
  [(str "RpmMetadata", 1), (str "artifactMetadataContainer", 2), (str "Digest", 3),
   (str "ApkMetadata", 4)]

/-- The pattern `p` occurs in `n` at the byte offset `i`. -/
def occursAt (p n : GoString) (i : Nat) : Prop :=
  i + p.length ≤ n.length ∧ (n.drop i).take p.length = p

/-- The first (leftmost) occurrence of `p` in `n` is at the offset `i`, is preceded by
the start of `n` or a `'-'`, and is followed by the end of `n` or a `'-'`. -/
def firstOccurrenceIsWord (p n : GoString) (i : Nat) : Prop :=
  occursAt p n i ∧ (∀ j, j < i → ¬ occursAt p n j) ∧
    (i = 0 ∨ n.get? (i - 1) = some dash) ∧
    (i + p.length = n.length ∨ n.get? (i + p.length) = some dash)

/-- The claim of the specification about `hasFullWord`, in its words: `p` occurs in
`n` at some offset `i` where it is preceded by the start of `n` or a `'-'` and
followed by the end of `n` or a `'-'`. -/
def occursAsWord (p n : GoString) : Prop :=
  ∃ i : Nat, i + p.length ≤ n.length ∧ (n.drop i).take p.length = p ∧
    (i = 0 ∨ n.get? (i - 1) = some dash) ∧
    (i + p.length = n.length ∨ n.get? (i + p.length) = some dash)

/-! ## Lemmas on the string helpers -/

theorem TrimSuffix_append (s suffix : GoString) :
    strings.TrimSuffix (s ++ suffix) suffix = s := by
  simp [strings.TrimSuffix, strings.HasSuffix]

theorem TrimSuffix_of_not_hasSuffix (s suffix : GoString)
    (h : strings.HasSuffix s suffix = false) : strings.TrimSuffix s suffix = s := by
  simp [strings.TrimSuffix, h]

theorem HasPrefix_length (s pre : GoString) (h : strings.HasPrefix s pre = true) :
    pre.length ≤ s.length := by
  simp only [strings.HasPrefix, Bool.and_eq_true, decide_eq_true_eq] at h
  exact h.1

/-- The result of the scan is `-1` or the offset of an occurrence that lies within the
string. -/
theorem indexFrom_bounds (substr s : GoString) (i : Nat) :
    strings.indexFrom substr s i = -1 ∨
      ((i : Int) ≤ strings.indexFrom substr s i ∧
        strings.indexFrom substr s i + substr.length ≤ i + s.length) := by
  induction s generalizing i with
  | nil =>
    unfold strings.indexFrom
    by_cases h : strings.HasPrefix [] substr = true
    · have := HasPrefix_length _ _ h
      simp only [h, if_true, List.length_nil] at *
      right; omega
    · simp [h]
  | cons c s ih =>
    unfold strings.indexFrom
    by_cases h : strings.HasPrefix (c :: s) substr = true
    · have := HasPrefix_length _ _ h
      simp only [h, if_true, List.length_cons] at *
      right; omega
    · simp only [h, Bool.false_eq_true, if_false]
      rcases ih (i + 1) with h1 | h1
      · exact Or.inl h1
      · right
        simp only [List.length_cons]
        push_cast at h1 ⊢
        omega

/-- The two index expressions of `hasFullWord` are in bounds: `strings.Index` returns
`-1` or an offset `start` with `start + len(substr) <= len(s)`, so that `start - 1` is
a valid index when `start > 0`, and `start + len(substr)` is one under the guard
`end < len(candidate)`. -/
theorem Index_bounds (s substr : GoString) :
    strings.Index s substr = -1 ∨
      (0 ≤ strings.Index s substr ∧ strings.Index s substr + len substr ≤ len s) := by
  rcases indexFrom_bounds substr s 0 with h | h
  · exact Or.inl h
  · right
    unfold strings.Index len
    push_cast at h
    omega

theorem requestsAll_iff (ps : List GoString) :
    requestsAll ps = true ↔ AllCatalogersPattern ∈ ps := by
  induction ps with
  | nil => simp [requestsAll]
  | cons p ps ih =>
    by_cases hp : p = AllCatalogersPattern
    · simp [requestsAll, hp]
    · have hp2 : ¬ AllCatalogersPattern = p := fun h => hp h.symm
      simp [requestsAll, hp, hp2, ih]

theorem keep_foldl_eq_filter {κ : Type} (keep : κ → Bool) (cs acc : List κ) :
    cs.foldl (fun keepCatalogers c => if keep c then keepCatalogers ++ [c] else keepCatalogers) acc
      = acc ++ cs.filter keep := by
  induction cs generalizing acc with
  | nil => simp
  | cons c cs ih =>
    by_cases hc : keep c = true
    · simp [List.foldl_cons, ih, hc]
    · simp [List.foldl_cons, ih, hc]

/-- Without patterns that request everything, `filterCatalogers` is the filter by
`contains`. -/
theorem filterCatalogers_eq_filter {κ : Type} (Name : κ → GoString) (cs : List κ)
    (ps : List GoString) (hne : ps ≠ []) (hall : AllCatalogersPattern ∉ ps) :
    filterCatalogers Name cs ps = cs.filter (fun c => contains ps (Name c)) := by
  have h1 : ¬ ps.length = 0 := by
    intro h; exact hne (List.length_eq_zero.mp h)
  have h2 : requestsAll ps = false := by
    cases h : requestsAll ps with
    | false => rfl
    | true => exact absurd ((requestsAll_iff ps).mp h) hall
  simp only [filterCatalogers, beq_iff_eq, h1, if_false, h2, Bool.false_eq_true]
  rw [keep_foldl_eq_filter]; simp

theorem containsLoop_footgun (name : GoString) (ps : List GoString)
    (h : ∀ p ∈ ps, p = str "" ∨ p = str "cataloger" ∨ p = str "-cataloger") :
    containsLoop name ps = false := by
  induction ps with
  | nil => rfl
  | cons p ps ih =>
    have ih2 := ih (fun q hq => h q (List.mem_cons_of_mem _ hq))
    rcases h p (List.mem_cons_self _ _) with hp | hp | hp
    · subst hp
      have : strings.TrimSuffix (str "") (str "-cataloger") = str "" := by decide
      simp [containsLoop, this, ih2]
    · subst hp
      have h1 : strings.TrimSuffix (str "cataloger") (str "-cataloger") = str "cataloger" := by
        decide
      have h2 : (str "cataloger" == str "") = false := by decide
      have h3 : hasFullWord (str "cataloger") name = false := by
        simp [hasFullWord]
      simp [containsLoop, h1, h2, h3, ih2]
    · subst hp
      have : strings.TrimSuffix (str "-cataloger") (str "-cataloger") = str "" := by decide
      simp [containsLoop, this, ih2]


/-! ## Lemmas on sorting -/

namespace sort

theorem sink_perm {α : Type} (less : α → α → Bool) (x : α) (l : List α) :
    (sink less x l).Perm (x :: l) := by
  induction l with
  | nil => exact List.Perm.refl _
  | cons y ys ih =>
    by_cases h : less x y = true
    · simp only [sink, h, if_true]
      exact (List.Perm.cons y ih).trans (List.Perm.swap x y ys)
    · simp only [sink, h]
      exact List.Perm.refl _

theorem insertion_foldl_perm {α : Type} (less : α → α → Bool) (data acc : List α) :
    (data.foldl (fun sortedPart x => sink less x sortedPart) acc).Perm (data.reverse ++ acc) := by
  induction data generalizing acc with
  | nil => simp
  | cons x xs ih =>
    simp only [List.foldl_cons, List.reverse_cons, List.append_assoc, List.singleton_append]
    exact (ih _).trans (List.Perm.append_left _ (sink_perm less x acc))

theorem insertionSort_func_perm {α : Type} (less : α → α → Bool) (data : List α) :
    (insertionSort_func less data).Perm data := by
  unfold insertionSort_func
  refine (List.reverse_perm _).trans ?_
  have h := insertion_foldl_perm less data []
  simp only [List.append_nil] at h
  exact h.trans (List.reverse_perm _)

theorem sink_pairwise {α : Type} (less : α → α → Bool) (hless : TransitiveOrdering less)
    (x : α) (l : List α) (hl : l.Pairwise (fun u v => less u v = false)) :
    (sink less x l).Pairwise (fun u v => less u v = false) := by
  induction l with
  | nil => simp [sink]
  | cons y ys ih =>
    rw [List.pairwise_cons] at hl
    by_cases h : less x y = true
    · simp only [sink, h, if_true]
      rw [List.pairwise_cons]
      refine ⟨?_, ih hl.2⟩
      intro z hz
      rcases List.mem_cons.mp ((sink_perm less x ys).subset hz) with hzx | hzy
      · subst hzx
        cases hyz : less y z with
        | false => rfl
        | true =>
          have := hless.trans z y z h hyz
          rw [hless.irrefl] at this
          exact absurd this (by decide)
      · exact hl.1 z hzy
    · have hxy : less x y = false := by
        cases hc : less x y with
        | false => rfl
        | true => exact absurd hc h
      simp only [sink, hxy, Bool.false_eq_true, if_false]
      rw [List.pairwise_cons, List.pairwise_cons]
      refine ⟨?_, hl.1, hl.2⟩
      intro z hz
      rcases List.mem_cons.mp hz with hzy | hzy
      · subst hzy; exact hxy
      · exact hless.incomp x y z hxy (hl.1 z hzy)

theorem insertion_foldl_pairwise {α : Type} (less : α → α → Bool)
    (hless : TransitiveOrdering less) (data acc : List α)
    (hacc : acc.Pairwise (fun u v => less u v = false)) :
    (data.foldl (fun sortedPart x => sink less x sortedPart) acc).Pairwise
      (fun u v => less u v = false) := by
  induction data generalizing acc with
  | nil => simpa using hacc
  | cons x xs ih =>
    simp only [List.foldl_cons]
    exact ih _ (sink_pairwise less hless x acc hacc)

theorem SliceIsSorted_of_pairwise {α : Type} (less : α → α → Bool) (l : List α)
    (h : l.Pairwise (fun a b => less b a = false)) : SliceIsSorted less l = true := by
  induction l with
  | nil => rfl
  | cons a l ih =>
    cases l with
    | nil => rfl
    | cons b l =>
      rw [List.pairwise_cons] at h
      simp only [SliceIsSorted, Bool.and_eq_true, Bool.not_eq_true']
      exact ⟨h.1 b (List.mem_cons_self _ _), ih h.2⟩

theorem chain_of_SliceIsSorted {α : Type} (less : α → α → Bool) (l : List α)
    (h : SliceIsSorted less l = true) : l.Chain' (fun a b => less b a = false) := by
  induction l with
  | nil => exact List.chain'_nil
  | cons a l ih =>
    cases l with
    | nil => exact List.chain'_singleton a
    | cons b l =>
      simp only [SliceIsSorted, Bool.and_eq_true, Bool.not_eq_true'] at h
      exact List.chain'_cons.mpr ⟨h.1, ih h.2⟩

theorem insertionSort_func_sorted {α : Type} (less : α → α → Bool)
    (hless : TransitiveOrdering less) (data : List α) :
    SliceIsSorted less (insertionSort_func less data) = true := by
  apply SliceIsSorted_of_pairwise
  unfold insertionSort_func
  rw [List.pairwise_reverse]
  exact insertion_foldl_pairwise less hless data [] List.Pairwise.nil

end sort

/-- Insertion sort is one `sort.Slice`: the one every short slice gets. -/
def insertionSorter (α : Type) : sort.SliceSorter α where
  run := sort.insertionSort_func
  perm := sort.insertionSort_func_perm
  sorted := sort.insertionSort_func_sorted

namespace sort

theorem sink_filter_of {α : Type} (less : α → α → Bool) (p : α → Bool)
    (hp : ∀ x y, less x y = true → p x = true → p y = true → False) (x : α) (l : List α) :
    (sink less x l).filter p = (x :: l).filter p := by
  induction l with
  | nil => rfl
  | cons y ys ih =>
    by_cases h : less x y = true
    · simp only [sink, h, if_true, List.filter_cons, ih]
      cases hx : p x <;> cases hy : p y <;> simp
      exact (hp x y h hx hy).elim
    · simp only [sink, h]
      rfl

theorem sink_filter {α : Type} (less : α → α → Bool) (hless : TransitiveOrdering less)
    (z x : α) (l : List α) :
    (sink less x l).filter (fun y => !less z y && !less y z)
      = (x :: l).filter (fun y => !less z y && !less y z) := by
  apply sink_filter_of
  intro a b hab ha hb
  simp only [Bool.and_eq_true, Bool.not_eq_true'] at ha hb
  have := hless.incomp a z b ha.2 hb.1
  rw [hab] at this
  exact absurd this (by decide)

theorem insertion_foldl_filter {α : Type} (less : α → α → Bool)
    (hless : TransitiveOrdering less) (z : α) (data acc : List α) :
    (data.foldl (fun sortedPart x => sink less x sortedPart) acc).filter
        (fun y => !less z y && !less y z)
      = (data.reverse ++ acc).filter (fun y => !less z y && !less y z) := by
  induction data generalizing acc with
  | nil => simp
  | cons x xs ih =>
    simp only [List.foldl_cons, List.reverse_cons, List.append_assoc, List.singleton_append]
    rw [ih, List.filter_append, List.filter_append, sink_filter less hless]

theorem insertionSort_func_stable {α : Type} (less : α → α → Bool)
    (hless : TransitiveOrdering less) (data : List α) (z : α) :
    (insertionSort_func less data).filter (fun y => !less z y && !less y z)
      = data.filter (fun y => !less z y && !less y z) := by
  unfold insertionSort_func
  rw [List.filter_reverse, insertion_foldl_filter less hless z data []]
  simp [List.filter_reverse]

end sort

/-- Insertion sort is one `sort.SliceStable`: the one every slice of at most 20
elements gets (`stable_func` sorts blocks of 20 by insertion before it merges). -/
def insertionStable (α : Type) : sort.StableSorter α where
  toSliceSorter := insertionSorter α
  stable := sort.insertionSort_func_stable

/-- One choice of what `ToFormatModel` takes from outside: insertion sorts, a catalog
that is the list of its packages already sorted, the real path as `Coordinates.ID()`,
and the keys of the file metadata as `AllCoordinates()`. -/
def sampleExternals : Externals Nat Nat Nat GoString (List (pkg.Package Nat GoString)) Unit where
  sortRelationships := insertionSorter _
  sortFiles := insertionStable _
  sortSecrets := insertionStable _
  cpeString := id
  Sorted := id
  coordinatesID := fun c => c.RealPath
  AllCoordinates := fun s => s.Artifacts.FileMetadata.map Prod.fst
  JSONSchemaVersion := str "7.1.1"

/-- An SBOM of a source with an unsupported scheme: one package without licenses, one
file with metadata and without digests. -/
def sampleSBOM : sbom.SBOM Nat Nat Nat (List (pkg.Package Nat GoString)) Unit where
  Artifacts :=
    { PackageCatalog :=
        some
          [{ id := str "1", Name := str "musl", Version := str "1.2", Type_ := str "apk",
             FoundBy := str "apkdb-cataloger", Locations := [], Licenses := Slice.nil,
             Language := str "", CPEs := Slice.nil, PURL := str "", MetadataType := str "",
             Metadata := 0 }]
      FileMetadata :=
        [({ RealPath := str "/bin/sh", FileSystemID := str "layer-1" },
          { Mode := 493, Type_ := stereoscopeFile.Type_.TypeRegular, UserID := 0, GroupID := 0,
            LinkDestination := str "", MIMEType := str "" })]
      FileDigests := []
      FileContents := []
      Secrets := []
      LinuxDistribution := none }
  Relationships := []
  Source :=
    { ID := str "src", Scheme := source.Scheme.other (str "UnknownScheme"),
      ImageMetadata := { RepoDigests := Slice.nil, Tags := Slice.nil, rest := () },
      Path := str "/" }
  Descriptor := { Name := str "syft", Version := str "0", Configuration := 0 }

/-! ## Lemmas on the relationship order -/

theorem relationshipLess_iff {δ : Type} (a b : model.Relationship δ) :
    relationshipLess a b = true ↔ relationshipKey a < relationshipKey b := by
  unfold relationshipLess relationshipKey
  rw [Prod.Lex.lt_iff]
  by_cases hp : a.Parent = b.Parent
  · by_cases hc : a.Child = b.Child
    · simp [hp, hc, Prod.Lex.lt_iff]
    · simp [hp, hc, Prod.Lex.lt_iff]
  · simp [hp]

theorem relationshipLess_false_iff {δ : Type} (a b : model.Relationship δ) :
    relationshipLess a b = false ↔ relationshipKey b ≤ relationshipKey a := by
  rw [← not_lt, ← relationshipLess_iff]
  simp

theorem keyLe_iff {δ : Type} (a b : model.Relationship δ) :
    keyLe a b ↔ relationshipKey a ≤ relationshipKey b := by
  unfold keyLe relationshipKey
  rw [Prod.Lex.le_iff]
  simp [Prod.Lex.le_iff]

theorem relationshipLess_ordering (δ : Type) :
    sort.TransitiveOrdering (relationshipLess : model.Relationship δ → _ → Bool) where
  irrefl a := by rw [relationshipLess_false_iff]
  trans a b c hab hbc := by
    rw [relationshipLess_iff] at *
    exact lt_trans hab hbc
  incomp a b c hab hbc := by
    rw [relationshipLess_false_iff] at *
    exact le_trans hbc hab

theorem toRelationshipModel_keys_sorted {δ : Type} (S : sort.SliceSorter (model.Relationship δ))
    (rs : List (artifact.Relationship δ)) :
    (toRelationshipModel S rs).Pairwise (fun a b => relationshipKey a ≤ relationshipKey b) := by
  have h := sort.chain_of_SliceIsSorted _ _
    (S.sorted relationshipLess (relationshipLess_ordering δ) (rs.map toRelationship))
  have h2 : (toRelationshipModel S rs).Chain'
      (fun a b => relationshipKey a ≤ relationshipKey b) := by
    refine List.Chain'.imp ?_ h
    intro a b hab
    exact (relationshipLess_false_iff b a).mp hab
  haveI : IsTrans (model.Relationship δ) (fun a b => relationshipKey a ≤ relationshipKey b) :=
    ⟨fun _ _ _ hab hbc => le_trans hab hbc⟩
  exact List.chain'_iff_pairwise.mp h2

theorem keys_eq_of_perm_of_sorted {δ : Type} (l₁ l₂ : List (model.Relationship δ))
    (hp : l₁.Perm l₂)
    (h₁ : l₁.Pairwise (fun a b => relationshipKey a ≤ relationshipKey b))
    (h₂ : l₂.Pairwise (fun a b => relationshipKey a ≤ relationshipKey b)) :
    l₁.map relationshipKey = l₂.map relationshipKey := by
  apply List.eq_of_perm_of_sorted (r := (· ≤ ·)) (hp.map _)
  · exact List.pairwise_map.mpr h₁
  · exact List.pairwise_map.mpr h₂

theorem eq_of_perm_of_sorted_of_keys_inj {δ : Type} (l₁ l₂ : List (model.Relationship δ))
    (hp : l₁.Perm l₂)
    (h₁ : l₁.Pairwise (fun a b => relationshipKey a ≤ relationshipKey b))
    (h₂ : l₂.Pairwise (fun a b => relationshipKey a ≤ relationshipKey b))
    (hinj : ∀ a ∈ l₁, ∀ b ∈ l₁, relationshipKey a = relationshipKey b → a = b) :
    l₁ = l₂ := by
  haveI : IsAntisymm (model.Relationship δ)
      (fun a b => relationshipKey a < relationshipKey b ∨ a = b) := ⟨by
    intro a b hab hba
    rcases hab with hab | hab
    · rcases hba with hba | hba
      · exact absurd (lt_trans hab hba) (lt_irrefl _)
      · exact hba.symm
    · exact hab⟩
  apply List.eq_of_perm_of_sorted
    (r := fun a b => relationshipKey a < relationshipKey b ∨ a = b) hp
  · refine List.Pairwise.imp_of_mem ?_ h₁
    intro a b ha hb hab
    rcases lt_or_eq_of_le hab with h | h
    · exact Or.inl h
    · exact Or.inr (hinj a ha b hb h)
  · refine List.Pairwise.imp_of_mem ?_ h₂
    intro a b ha hb hab
    rcases lt_or_eq_of_le hab with h | h
    · exact Or.inl h
    · exact Or.inr (hinj a (hp.symm.subset ha) b (hp.symm.subset hb) h)

theorem relationshipKey_eq_iff {δ : Type} (a b : model.Relationship δ) :
    relationshipKey a = relationshipKey b ↔
      a.Parent = b.Parent ∧ a.Child = b.Child ∧ a.Type_ = b.Type_ := by
  unfold relationshipKey
  constructor
  · intro h
    have h1 := congrArg (fun k => (ofLex k).1) h
    have h2 := congrArg (fun k => (ofLex (ofLex k).2).1) h
    have h3 := congrArg (fun k => (ofLex (ofLex k).2).2) h
    exact ⟨h1, h2, h3⟩
  · rintro ⟨h1, h2, h3⟩
    rw [h1, h2, h3]

/-! ## Cataloger selection -/

/-- C1: `hasFullWord` looks at the first occurrence of the pattern only: the pattern
`go` occurs in `gopher-go` as a whole `-`-delimited word (at offset 7), and
`hasFullWord` answers false, because the occurrence at offset 0 is followed by `p`. -/
theorem hasFullWord_misses_later_word :
    hasFullWord (str "go") (str "gopher-go") = false ∧
      occursAsWord (str "go") (str "gopher-go") := by
  refine ⟨by decide, 7, ?_⟩
  decide

/-- C2, as the claim states it, fails: with the pattern `go` the selection is not
`go-mod-cataloger` and `golang-bin-cataloger`, and `golang-bin-cataloger` is not
selected at all. -/
theorem filterCatalogers_go_not_golang :
    filterCatalogers id
        [str "go-mod-cataloger", str "gopher-cataloger", str "golang-bin-cataloger"] [str "go"]
      ≠ [str "go-mod-cataloger", str "golang-bin-cataloger"] ∧
    str "golang-bin-cataloger" ∉
      filterCatalogers id
        [str "go-mod-cataloger", str "gopher-cataloger", str "golang-bin-cataloger"]
        [str "go"] := by
  decide

/-- C2, amended: of the catalogers named `go-mod-cataloger`, `gopher-cataloger` and
`golang-bin-cataloger`, the single pattern `go` selects exactly `go-mod-cataloger`;
neither `gopher-cataloger` nor `golang-bin-cataloger` is returned. -/
theorem filterCatalogers_go_selects_go_mod :
    filterCatalogers id
        [str "go-mod-cataloger", str "gopher-cataloger", str "golang-bin-cataloger"] [str "go"]
      = [str "go-mod-cataloger"] := by
  decide

/-- C3: with no pattern, or with the pattern `all` anywhere among the patterns,
`filterCatalogers` returns the catalogers it was given, unchanged. -/
theorem filterCatalogers_all {κ : Type} (Name : κ → GoString) (cs : List κ)
    (ps : List GoString) (h : ps = [] ∨ AllCatalogersPattern ∈ ps) :
    filterCatalogers Name cs ps = cs := by
  rcases h with h | h
  · subst h; rfl
  · have h2 : requestsAll ps = true := (requestsAll_iff ps).mpr h
    simp [filterCatalogers, h2]

theorem filterCatalogers_all_witness :
    ([str "go", str "all"] = [] ∨ AllCatalogersPattern ∈ [str "go", str "all"]) ∧
      filterCatalogers id [str "rpm-db-cataloger", str "go-mod-cataloger"]
          [str "go", str "all"]
        = [str "rpm-db-cataloger", str "go-mod-cataloger"] :=
  ⟨by decide, filterCatalogers_all id _ _ (by decide)⟩

/-- C4: patterns that are all among the empty string, `cataloger` and `-cataloger`
match no cataloger name, so a non-empty list of such patterns selects no cataloger. -/
theorem contains_footgun (n : GoString) (ps : List GoString)
    (h : ∀ p ∈ ps, p = str "" ∨ p = str "cataloger" ∨ p = str "-cataloger") :
    contains ps n = false ∧
      (ps ≠ [] → ∀ (κ : Type) (Name : κ → GoString) (cs : List κ),
        filterCatalogers Name cs ps = []) := by
  refine ⟨containsLoop_footgun _ ps h, ?_⟩
  intro hne κ Name cs
  have hall : AllCatalogersPattern ∉ ps := by
    intro hmem
    rcases h _ hmem with h1 | h1 | h1
    · exact absurd h1 (by decide)
    · exact absurd h1 (by decide)
    · exact absurd h1 (by decide)
  rw [filterCatalogers_eq_filter Name cs ps hne hall]
  apply List.filter_eq_nil_iff.mpr
  intro c _
  simp [contains, containsLoop_footgun _ ps h]

theorem contains_footgun_witness :
    (∀ p ∈ [str "cataloger", str "", str "-cataloger"],
        p = str "" ∨ p = str "cataloger" ∨ p = str "-cataloger") ∧
      contains [str "cataloger", str "", str "-cataloger"] (str "go-mod-cataloger") = false ∧
      filterCatalogers id [str "go-mod-cataloger"] [str "cataloger", str "", str "-cataloger"]
        = [] :=
  ⟨by decide,
    (contains_footgun (str "go-mod-cataloger") [str "cataloger", str "", str "-cataloger"]
      (by decide)).1,
    (contains_footgun (str "go-mod-cataloger") [str "cataloger", str "", str "-cataloger"]
      (by decide)).2 (by decide) _ id _⟩

/-- C5: for a non-empty pattern list without `all`, `filterCatalogers` returns exactly
the catalogers whose name `contains` accepts, in their original order; it is a total
function, and when nothing matches its result is the empty list. -/
theorem filterCatalogers_selects {κ : Type} (Name : κ → GoString) (cs : List κ)
    (ps : List GoString) (hne : ps ≠ []) (hall : AllCatalogersPattern ∉ ps) :
    filterCatalogers Name cs ps = cs.filter (fun c => contains ps (Name c)) ∧
      ((∀ c ∈ cs, contains ps (Name c) = false) → filterCatalogers Name cs ps = []) := by
  refine ⟨filterCatalogers_eq_filter Name cs ps hne hall, ?_⟩
  intro hnone
  rw [filterCatalogers_eq_filter Name cs ps hne hall]
  apply List.filter_eq_nil_iff.mpr
  intro c hc
  simp [hnone c hc]

theorem filterCatalogers_selects_witness :
    [str "rpm", str "mod"] ≠ [] ∧ AllCatalogersPattern ∉ [str "rpm", str "mod"] ∧
      filterCatalogers id
          [str "go-mod-cataloger", str "dpkgdb-cataloger", str "rpm-db-cataloger"]
          [str "rpm", str "mod"]
        = [str "go-mod-cataloger", str "rpm-db-cataloger"] :=
  ⟨by decide, by decide,
    ((filterCatalogers_selects id
      [str "go-mod-cataloger", str "dpkgdb-cataloger", str "rpm-db-cataloger"]
      [str "rpm", str "mod"] (by decide) (by decide)).1).trans (by decide)⟩

/-- C6: for a pattern and a name that do not end in `-cataloger`, writing the suffix
on the pattern, on the name, on both or on neither gives the same match result. -/
theorem contains_suffix_irrelevant (p n : GoString)
    (hp : strings.HasSuffix p (str "-cataloger") = false)
    (hn : strings.HasSuffix n (str "-cataloger") = false) :
    contains [p ++ str "-cataloger"] (n ++ str "-cataloger")
        = contains [p] (n ++ str "-cataloger") ∧
      contains [p] (n ++ str "-cataloger") = contains [p ++ str "-cataloger"] n ∧
      contains [p ++ str "-cataloger"] n = contains [p] n := by
  simp only [contains, containsLoop, TrimSuffix_append,
    TrimSuffix_of_not_hasSuffix _ _ hp, TrimSuffix_of_not_hasSuffix _ _ hn, and_self]

theorem contains_suffix_irrelevant_witness :
    strings.HasSuffix (str "mod") (str "-cataloger") = false ∧
      strings.HasSuffix (str "go-mod") (str "-cataloger") = false ∧
      contains [str "mod" ++ str "-cataloger"] (str "go-mod" ++ str "-cataloger") = true ∧
      contains [str "mod"] (str "go-mod") = true :=
  ⟨by decide, by decide,
    ((contains_suffix_irrelevant (str "mod") (str "go-mod") (by decide) (by decide)).1.trans
      ((contains_suffix_irrelevant (str "mod") (str "go-mod") (by decide) (by decide)).2.1.trans
        (contains_suffix_irrelevant (str "mod") (str "go-mod") (by decide) (by decide)).2.2)).trans
      (by decide),
    by decide⟩

/-- C7, as the claim states it, fails: with no patterns configured, the cataloger built
by `rust.NewAuditBinaryCataloger` is in the list of `AllCatalogers` and in neither the
list of `ImageCatalogers` nor that of `DirectoryCatalogers`. -/
theorem AllCatalogers_not_union :
    CatalogerCall.rust_NewAuditBinaryCataloger ∈ AllCatalogers unnamed noPatterns ∧
      CatalogerCall.rust_NewAuditBinaryCataloger ∉ ImageCatalogers unnamed noPatterns ∧
      CatalogerCall.rust_NewAuditBinaryCataloger ∉ DirectoryCatalogers unnamed noPatterns := by
  decide

/-- C7, amended: with no patterns configured, every cataloger of `ImageCatalogers` or
`DirectoryCatalogers` is in the list of `AllCatalogers`, and every cataloger of
`AllCatalogers` is in the image list, in the directory list, or is the one built by
`rust.NewAuditBinaryCataloger`, which is in neither. -/
theorem AllCatalogers_union_and_audit {J G : Type} (Name : CatalogerCall J G → GoString)
    (cfg : Config J G) (h : cfg.Catalogers = []) (c : CatalogerCall J G) :
    (c ∈ AllCatalogers Name cfg ↔
      (c ∈ ImageCatalogers Name cfg ∨ c ∈ DirectoryCatalogers Name cfg ∨
        c = CatalogerCall.rust_NewAuditBinaryCataloger)) ∧
      CatalogerCall.rust_NewAuditBinaryCataloger ∉ ImageCatalogers Name cfg ∧
      CatalogerCall.rust_NewAuditBinaryCataloger ∉ DirectoryCatalogers Name cfg := by
  simp only [AllCatalogers, ImageCatalogers, DirectoryCatalogers, filterCatalogers, h,
    List.length_nil, beq_self_eq_true, if_true, List.mem_cons, List.mem_singleton,
    List.not_mem_nil, or_false]
  refine ⟨⟨?_, ?_⟩, by simp, by simp⟩
  · intro hc
    rcases hc with rfl | rfl | rfl | rfl | rfl | rfl | rfl | rfl | rfl | rfl | rfl | rfl | rfl | rfl | rfl | rfl | rfl | rfl | rfl | rfl | rfl | rfl | rfl | rfl | rfl | rfl | rfl | rfl | rfl | rfl | rfl | rfl <;> simp
  · intro hc
    rcases hc with (rfl | rfl | rfl | rfl | rfl | rfl | rfl | rfl | rfl | rfl | rfl | rfl | rfl | rfl | rfl | rfl) | (rfl | rfl | rfl | rfl | rfl | rfl | rfl | rfl | rfl | rfl | rfl | rfl | rfl | rfl | rfl | rfl | rfl | rfl | rfl | rfl | rfl | rfl | rfl | rfl | rfl | rfl | rfl | rfl) | rfl <;> simp

theorem AllCatalogers_union_and_audit_witness :
    noPatterns.Catalogers = [] ∧
      (CatalogerCall.javascript_NewLockCataloger ∈ AllCatalogers unnamed noPatterns ↔
        (CatalogerCall.javascript_NewLockCataloger ∈ ImageCatalogers unnamed noPatterns ∨
          CatalogerCall.javascript_NewLockCataloger ∈ DirectoryCatalogers unnamed noPatterns ∨
          (CatalogerCall.javascript_NewLockCataloger : CatalogerCall Unit Unit) =
            CatalogerCall.rust_NewAuditBinaryCataloger)) :=
  ⟨rfl, (AllCatalogers_union_and_audit unnamed noPatterns rfl _).1⟩

/-! ## Relationship ordering -/

/-- C8: the output of `toRelationshipModel` is ordered non-decreasingly by the triple
`(Parent, Child, Type)` in lexicographic order: each element is at most the element
after it, and so at most every later element. -/
theorem toRelationshipModel_sorted {δ : Type} (S : sort.SliceSorter (model.Relationship δ))
    (rs : List (artifact.Relationship δ)) :
    (toRelationshipModel S rs).Chain' keyLe ∧ (toRelationshipModel S rs).Pairwise keyLe := by
  have h : (toRelationshipModel S rs).Pairwise keyLe :=
    (toRelationshipModel_keys_sorted S rs).imp (fun hab => (keyLe_iff _ _).mpr hab)
  exact ⟨h.chain', h⟩

/-- C9, as the claim states it, fails: two relationships equal in `Parent`, `Child` and
`Type` and different in `Data` come out in the order they went in, so two inputs that
are permutations of each other give different outputs. -/
theorem toRelationshipModel_order_dependent :
    [containsEdge 1, containsEdge 2].Perm [containsEdge 2, containsEdge 1] ∧
      toRelationshipModel (insertionSorter _) [containsEdge 1, containsEdge 2]
        ≠ toRelationshipModel (insertionSorter _) [containsEdge 2, containsEdge 1] :=
  ⟨List.Perm.swap _ _ _, by decide⟩

/-- C9, amended: for two lists of relationships that are permutations of each other,
the outputs of `toRelationshipModel` (of any two runs) are permutations of each other
and show the same sequence of `(Parent, Child, Type)` triples; they are the same list
when any two relationships of the input equal in `Parent`, `Child` and `Type` are also
equal in `Data`. -/
theorem toRelationshipModel_perm_invariant {δ : Type}
    (S₁ S₂ : sort.SliceSorter (model.Relationship δ))
    (rs₁ rs₂ : List (artifact.Relationship δ)) (h : rs₁.Perm rs₂) :
    (toRelationshipModel S₁ rs₁).Perm (toRelationshipModel S₂ rs₂) ∧
      (toRelationshipModel S₁ rs₁).map (fun r => (r.Parent, r.Child, r.Type_))
        = (toRelationshipModel S₂ rs₂).map (fun r => (r.Parent, r.Child, r.Type_)) ∧
      ((∀ a ∈ rs₁, ∀ b ∈ rs₁, a.From.ID = b.From.ID → a.To.ID = b.To.ID →
          a.Type_ = b.Type_ → a.Data = b.Data) →
        toRelationshipModel S₁ rs₁ = toRelationshipModel S₂ rs₂) := by
  have hp : (toRelationshipModel S₁ rs₁).Perm (toRelationshipModel S₂ rs₂) :=
    ((S₁.perm _ _).trans (h.map _)).trans (S₂.perm _ _).symm
  have h₁ := toRelationshipModel_keys_sorted S₁ rs₁
  have h₂ := toRelationshipModel_keys_sorted S₂ rs₂
  refine ⟨hp, ?_, ?_⟩
  · have hk := keys_eq_of_perm_of_sorted _ _ hp h₁ h₂
    have hk2 := congrArg
      (List.map (fun k : GoString ×ₗ GoString ×ₗ GoString =>
        ((ofLex k).1, (ofLex (ofLex k).2).1, (ofLex (ofLex k).2).2))) hk
    simpa [List.map_map, Function.comp_def, relationshipKey] using hk2
  · intro hdata
    apply eq_of_perm_of_sorted_of_keys_inj _ _ hp h₁ h₂
    intro a ha b hb hab
    have ha2 : a ∈ rs₁.map toRelationship := (S₁.perm _ _).subset ha
    have hb2 : b ∈ rs₁.map toRelationship := (S₁.perm _ _).subset hb
    obtain ⟨x, hx, rfl⟩ := List.mem_map.mp ha2
    obtain ⟨y, hy, rfl⟩ := List.mem_map.mp hb2
    obtain ⟨e1, e2, e3⟩ := (relationshipKey_eq_iff _ _).mp hab
    simp only [toRelationship] at e1 e2 e3
    have e4 := hdata x hx y hy e1 e2 e3
    simp only [toRelationship, e1, e2, e3, e4]

theorem toRelationshipModel_perm_invariant_witness :
    [containsEdge 1, containsEdge 2].Perm [containsEdge 2, containsEdge 1] ∧
      (toRelationshipModel (insertionSorter _) [containsEdge 1, containsEdge 2]).map
          (fun r => (r.Parent, r.Child, r.Type_))
        = (toRelationshipModel (insertionSorter _) [containsEdge 2, containsEdge 1]).map
          (fun r => (r.Parent, r.Child, r.Type_)) :=
  ⟨List.Perm.swap _ _ _,
    (toRelationshipModel_perm_invariant (insertionSorter _) (insertionSorter _)
      [containsEdge 1, containsEdge 2] [containsEdge 2, containsEdge 1]
      (List.Perm.swap _ _ _)).2.1⟩

/-- C10: the output of `toRelationshipModel` is a rearrangement of the input mapped
element by element (`Parent = From.ID()`, `Child = To.ID()`, `Type = Type`,
`Metadata = Data`): it has the length of the input, and nothing is dropped,
duplicated, added or altered; no catalog is consulted. -/
theorem toRelationshipModel_perm {δ : Type} (S : sort.SliceSorter (model.Relationship δ))
    (rs : List (artifact.Relationship δ)) :
    (toRelationshipModel S rs).Perm
        (rs.map fun r =>
          { Parent := r.From.ID, Child := r.To.ID, Type_ := r.Type_, Metadata := r.Data }) ∧
      (toRelationshipModel S rs).length = rs.length := by
  have h : (toRelationshipModel S rs).Perm (rs.map toRelationship) := S.perm _ _
  exact ⟨h, by rw [h.length_eq, List.length_map]⟩

/-! ## Lemmas on sorting by a key -/

theorem foldl_append_eq_map {α β : Type} (f : α → β) (l : List α) (init : List β) :
    l.foldl (fun acc x => acc ++ [f x]) init = init ++ l.map f := by
  induction l generalizing init with
  | nil => simp
  | cons x xs ih => simp [List.foldl_cons, ih]

theorem keyLess_ordering {α β : Type} [LinearOrder β] (key : α → β) (less : α → α → Bool)
    (hless : ∀ a b, less a b = decide (key a < key b)) : sort.TransitiveOrdering less where
  irrefl a := by simp [hless]
  trans a b c hab hbc := by
    simp only [hless, decide_eq_true_eq] at *
    exact lt_trans hab hbc
  incomp a b c hab hbc := by
    simp only [hless, decide_eq_false_iff_not, not_lt] at *
    exact le_trans hbc hab

theorem run_sorted_by_key {α β : Type} [LinearOrder β] (S : sort.SliceSorter α) (key : α → β)
    (less : α → α → Bool) (hless : ∀ a b, less a b = decide (key a < key b)) (l : List α) :
    (S.run less l).Pairwise (fun a b => key a ≤ key b) := by
  have h := sort.chain_of_SliceIsSorted _ _ (S.sorted less (keyLess_ordering key less hless) l)
  have h2 : (S.run less l).Chain' (fun a b => key a ≤ key b) := by
    refine List.Chain'.imp ?_ h
    intro a b hab
    simpa [hless] using hab
  haveI : IsTrans α (fun a b => key a ≤ key b) := ⟨fun _ _ _ hab hbc => le_trans hab hbc⟩
  exact List.chain'_iff_pairwise.mp h2

theorem toFile_mem {δ σ ρ κ ι : Type} (S : sort.StableSorter (model.File ρ))
    (coordinatesID : source.Coordinates → GoString)
    (AllCoordinates : sbom.SBOM δ σ ρ κ ι → List source.Coordinates)
    (s : sbom.SBOM δ σ ρ κ ι) (f : model.File ρ)
    (hf : f ∈ (toFile S coordinatesID AllCoordinates s).toList) :
    ∃ c ∈ AllCoordinates s,
      f.ID = coordinatesID c ∧ f.Location = c ∧
        f.Metadata = toFileMetadataEntry c (lookup c s.Artifacts.FileMetadata) ∧
        f.Digests = (lookup c s.Artifacts.FileDigests).getD Slice.nil ∧
        f.Contents = (lookup c s.Artifacts.FileContents).getD (str "") := by
  simp only [toFile, Slice.toList] at hf
  have hf2 := (S.perm _ _).subset hf
  rw [foldl_append_eq_map] at hf2
  simp only [List.nil_append, List.mem_map] at hf2
  obtain ⟨c, hc, rfl⟩ := hf2
  refine ⟨c, hc, rfl, rfl, rfl, ?_, ?_⟩
  · cases lookup c s.Artifacts.FileDigests <;> rfl
  · cases lookup c s.Artifacts.FileContents <;> rfl

theorem toPackageModels_some {δ γ κ : Type} (cpeString : γ → GoString)
    (Sorted : κ → List (pkg.Package δ γ)) (catalog : κ) :
    toPackageModels cpeString Sorted (some catalog)
      = Slice.mk ((Sorted catalog).map (toPackageModel cpeString)) := by
  simp only [toPackageModels]
  rw [foldl_append_eq_map]
  rfl

/-! ## Files and secrets -/

/-- C11: the list returned by `toSecrets` and the list returned by `toFile` are each
sorted non-decreasingly by `Location.RealPath`: every element is at most the element
after it, and so at most every later element. -/
theorem toSecrets_toFile_sorted {δ σ ρ κ ι : Type} (S₁ : sort.StableSorter (model.Secrets σ))
    (data : GoMap source.Coordinates σ) (S₂ : sort.StableSorter (model.File ρ))
    (coordinatesID : source.Coordinates → GoString)
    (AllCoordinates : sbom.SBOM δ σ ρ κ ι → List source.Coordinates)
    (s : sbom.SBOM δ σ ρ κ ι) :
    ((toSecrets S₁ data).toList.Chain'
        (fun a b => a.Location.RealPath ≤ b.Location.RealPath) ∧
      (toSecrets S₁ data).toList.Pairwise
        (fun a b => a.Location.RealPath ≤ b.Location.RealPath)) ∧
    ((toFile S₂ coordinatesID AllCoordinates s).toList.Chain'
        (fun a b => a.Location.RealPath ≤ b.Location.RealPath) ∧
      (toFile S₂ coordinatesID AllCoordinates s).toList.Pairwise
        (fun a b => a.Location.RealPath ≤ b.Location.RealPath)) := by
  constructor
  · have h : (toSecrets S₁ data).toList.Pairwise
        (fun a b => a.Location.RealPath ≤ b.Location.RealPath) :=
      run_sorted_by_key S₁.toSliceSorter (fun a => a.Location.RealPath) secretsLess
        (fun _ _ => rfl) _
    exact ⟨h.chain', h⟩
  · have h : (toFile S₂ coordinatesID AllCoordinates s).toList.Pairwise
        (fun a b => a.Location.RealPath ≤ b.Location.RealPath) :=
      run_sorted_by_key S₂.toSliceSorter (fun a => a.Location.RealPath) fileLess
        (fun _ _ => rfl) _
    exact ⟨h.chain', h⟩

/-- C12: `toSecrets` does not return the same list for every order of enumeration: a
secrets map with the two keys `/etc/passwd` of `layer-1` and `/etc/passwd` of `layer-2`
gives, enumerated in one order and in the other, two different lists, because the sort
compares `RealPath` only and is stable. -/
theorem toSecrets_depends_on_enumeration :
    layeredSecrets.reverse.Perm layeredSecrets ∧
      (layeredSecrets.map Prod.fst).Nodup ∧
      toSecrets (insertionStable _) layeredSecrets
        ≠ toSecrets (insertionStable _) layeredSecrets.reverse :=
  ⟨List.reverse_perm _, by decide, by decide⟩

/-! ## The source and the document -/

/-- C13, as the claim states it, fails: for an image whose `Tags` and `RepoDigests` are
`nil`, the target is not the image metadata of the source; its two lists are empty
lists, not `nil`. -/
theorem toSourceModel_target_normalised :
    (toSourceModel untaggedImage).2 = none ∧
      (toSourceModel untaggedImage).1.Target
        ≠ model.Target.image untaggedImage.ImageMetadata ∧
      (toSourceModel untaggedImage).1.Target
        = model.Target.image { RepoDigests := Slice.mk [], Tags := Slice.mk [], rest := () } := by
  decide

/-- C13, amended: `toSourceModel` returns an error exactly when the scheme is none of
`ImageScheme`, `DirectoryScheme` and `FileScheme`; on success the result keeps the
source ID, has the type `image`, `directory` or `file`, and its target is the source
path (directory, file) or the image metadata in which a `nil` list of `RepoDigests` or
`Tags` is replaced by the empty list (image): the elements of both lists and the
remaining fields are those of the source. -/
theorem toSourceModel_spec {ι : Type} (src : source.Metadata ι) :
    ((toSourceModel src).2.isSome = true ↔
        (src.Scheme ≠ source.Scheme.ImageScheme ∧ src.Scheme ≠ source.Scheme.DirectoryScheme ∧
          src.Scheme ≠ source.Scheme.FileScheme)) ∧
      (src.Scheme = source.Scheme.ImageScheme →
        (toSourceModel src).1 =
          { ID := src.ID, Type_ := str "image",
            Target := model.Target.image
              { RepoDigests := Slice.mk src.ImageMetadata.RepoDigests.toList
                Tags := Slice.mk src.ImageMetadata.Tags.toList
                rest := src.ImageMetadata.rest } }) ∧
      (src.Scheme = source.Scheme.DirectoryScheme →
        (toSourceModel src).1 =
          { ID := src.ID, Type_ := str "directory", Target := model.Target.path src.Path }) ∧
      (src.Scheme = source.Scheme.FileScheme →
        (toSourceModel src).1 =
          { ID := src.ID, Type_ := str "file", Target := model.Target.path src.Path }) := by
  refine ⟨?_, ?_, ?_, ?_⟩
  · cases h : src.Scheme <;> simp [toSourceModel, h]
  · intro h
    obtain ⟨id, scheme, ⟨digests, tags, rest⟩, path⟩ := src
    cases digests <;> cases tags <;> simp_all [toSourceModel, Slice.isNil, Slice.toList]
  · intro h
    simp [toSourceModel, h]
  · intro h
    simp [toSourceModel, h]

/-- C14: for an SBOM whose source scheme is unsupported, `ToFormatModel` returns a
document whose `Source` is the empty `model.Source` and whose every other field is
that of the document of the same SBOM with another scheme, provided
`s.AllCoordinates()` does not read the scheme. -/
theorem ToFormatModel_unsupported_scheme {δ σ ρ γ κ ι : Type} (X : Externals δ σ ρ γ κ ι)
    (s : sbom.SBOM δ σ ρ κ ι) (name : GoString) (supported : source.Scheme)
    (hs : s.Source.Scheme = source.Scheme.other name)
    (hAll : X.AllCoordinates (withScheme s supported) = X.AllCoordinates s) :
    (ToFormatModel X s).Source = model.Source.zero ι ∧
      (ToFormatModel X s).Artifacts = (ToFormatModel X (withScheme s supported)).Artifacts ∧
      (ToFormatModel X s).ArtifactRelationships
        = (ToFormatModel X (withScheme s supported)).ArtifactRelationships ∧
      (ToFormatModel X s).Files = (ToFormatModel X (withScheme s supported)).Files ∧
      (ToFormatModel X s).Secrets = (ToFormatModel X (withScheme s supported)).Secrets ∧
      (ToFormatModel X s).Distro = (ToFormatModel X (withScheme s supported)).Distro ∧
      (ToFormatModel X s).Descriptor = (ToFormatModel X (withScheme s supported)).Descriptor ∧
      (ToFormatModel X s).Schema = (ToFormatModel X (withScheme s supported)).Schema := by
  refine ⟨?_, rfl, rfl, ?_, rfl, rfl, rfl, rfl⟩
  · simp [ToFormatModel, toSourceModel, hs]
  · simp only [ToFormatModel, toFile, hAll]
    rfl

theorem ToFormatModel_unsupported_scheme_witness :
    sampleSBOM.Source.Scheme = source.Scheme.other (str "UnknownScheme") ∧
      sampleExternals.AllCoordinates (withScheme sampleSBOM source.Scheme.DirectoryScheme)
        = sampleExternals.AllCoordinates sampleSBOM ∧
      (ToFormatModel sampleExternals sampleSBOM).Source = model.Source.zero Unit ∧
      (ToFormatModel sampleExternals sampleSBOM).Files
        = (ToFormatModel sampleExternals
            (withScheme sampleSBOM source.Scheme.DirectoryScheme)).Files :=
  ⟨rfl, rfl,
    (ToFormatModel_unsupported_scheme sampleExternals sampleSBOM (str "UnknownScheme")
      source.Scheme.DirectoryScheme rfl rfl).1,
    (ToFormatModel_unsupported_scheme sampleExternals sampleSBOM (str "UnknownScheme")
      source.Scheme.DirectoryScheme rfl rfl).2.2.2.1⟩

/-- C15, as the claim states it, fails: a file whose coordinates have no entry in
`FileDigests` gets the `nil` list as its `Digests`, not an empty list. -/
theorem toFile_digests_nil :
    ∃ f ∈ (ToFormatModel sampleExternals sampleSBOM).Files.toList,
      f.Digests.toList = [] ∧ f.Digests.isNil = true := by
  decide

/-- C15, amended: in the document of `ToFormatModel`, the lists `Artifacts`,
`ArtifactRelationships`, `Files` and `Secrets`, the `Licenses`, `CPEs` and `Locations`
of every package, and the `Tags` and `RepoDigests` of an image source are never `nil`,
also when they are empty; the `Digests` of a file are the entry of `FileDigests` for its
coordinates, and `nil` when there is no entry. -/
theorem ToFormatModel_lists_not_nil {δ σ ρ γ κ ι : Type} (X : Externals δ σ ρ γ κ ι)
    (s : sbom.SBOM δ σ ρ κ ι) :
    (ToFormatModel X s).Artifacts.isNil = false ∧
      (ToFormatModel X s).ArtifactRelationships.isNil = false ∧
      (ToFormatModel X s).Files.isNil = false ∧
      (ToFormatModel X s).Secrets.isNil = false ∧
      (∀ p ∈ (ToFormatModel X s).Artifacts.toList,
        p.PackageBasicData.Licenses.isNil = false ∧ p.PackageBasicData.CPEs.isNil = false ∧
          p.PackageBasicData.Locations.isNil = false) ∧
      (s.Source.Scheme = source.Scheme.ImageScheme →
        ∃ m, (ToFormatModel X s).Source.Target = model.Target.image m ∧
          m.Tags.isNil = false ∧ m.RepoDigests.isNil = false) ∧
      (∀ f ∈ (ToFormatModel X s).Files.toList,
        f.Digests = (lookup f.Location s.Artifacts.FileDigests).getD Slice.nil) := by
  refine ⟨?_, rfl, rfl, rfl, ?_, ?_, ?_⟩
  · simp only [ToFormatModel, toPackageModels]
    cases s.Artifacts.PackageCatalog <;> rfl
  · intro p hp
    simp only [ToFormatModel] at hp
    cases hc : s.Artifacts.PackageCatalog with
    | none =>
      rw [hc] at hp
      simp [toPackageModels, Slice.toList] at hp
    | some catalog =>
      rw [hc, toPackageModels_some] at hp
      simp only [Slice.toList, List.mem_map] at hp
      obtain ⟨q, _, rfl⟩ := hp
      refine ⟨?_, rfl, rfl⟩
      simp only [toPackageModel]
      cases q.Licenses <;> rfl
  · intro h
    simp only [ToFormatModel, toSourceModel, h]
    refine ⟨_, rfl, ?_, ?_⟩
    · cases h1 : s.Source.ImageMetadata.RepoDigests <;>
        cases h2 : s.Source.ImageMetadata.Tags <;> simp [Slice.isNil, h1, h2]
    · cases h1 : s.Source.ImageMetadata.RepoDigests <;>
        cases h2 : s.Source.ImageMetadata.Tags <;> simp [Slice.isNil, h1, h2]
  · intro f hf
    obtain ⟨c, _, _, hloc, _, hdig, _⟩ :=
      toFile_mem X.sortFiles X.coordinatesID X.AllCoordinates s f hf
    rw [hloc, hdig]

/-- C16: the artifact list of `toPackageModels` has the length and the order of
`catalog.Sorted()`: its i-th element is `toPackageModel` of the i-th sorted package;
for a `nil` catalog it is the empty list. -/
theorem toPackageModels_spec {δ γ κ : Type} (cpeString : γ → GoString)
    (Sorted : κ → List (pkg.Package δ γ)) :
    (∀ catalog : κ,
        (toPackageModels cpeString Sorted (some catalog)).toList
            = (Sorted catalog).map (toPackageModel cpeString) ∧
          (toPackageModels cpeString Sorted (some catalog)).toList.length
            = (Sorted catalog).length ∧
          ∀ i : Nat,
            (toPackageModels cpeString Sorted (some catalog)).toList.get? i
              = ((Sorted catalog).get? i).map (toPackageModel cpeString)) ∧
      toPackageModels cpeString Sorted none = Slice.mk [] := by
  refine ⟨?_, rfl⟩
  intro catalog
  rw [toPackageModels_some]
  simp [Slice.toList]

/-! ## Schema writing -/

/-- C17 (as stated it fails): the schema file of version `7.1.1` exists and holds the
bytes `true` of the generated schema, but the process may not read it: `write` panics,
it does not exit with status 0.  And when no file exists and the write to the created
file fails after one byte, the file that `write` created holds `t`, not the generated
schema `true`. -/
theorem write_unreadable_panics :
    unreadableSchemaFile (schemaFilename (str "7.1.1")) = some (Entry.file (str "true") false) ∧
      (write (str "7.1.1") (str "true") os.noFaults unreadableSchemaFile).2 = Outcome.panic ∧
      (write (str "7.1.1") (str "true") os.noFaults unreadableSchemaFile).2 ≠ Outcome.exit 0 ∧
      emptyDirectory (schemaFilename (str "7.1.1")) = none ∧
      (write (str "7.1.1") (str "true") shortWrite emptyDirectory).1 (schemaFilename (str "7.1.1"))
        = some (Entry.file (str "t") true) ∧
      (write (str "7.1.1") (str "true") shortWrite emptyDirectory).1 (schemaFilename (str "7.1.1"))
        ≠ some (Entry.file (str "true") true) := by
  decide

/-- C17 (amended): `write` never overwrites an existing schema file of the current
version, whatever fails: if the name exists, every entry of the working directory is
left as it was.  If the file can be opened and read, the run exits with status 0 when
it holds the bytes of the generated schema and with status 1 when it holds other
bytes; if the name is a directory, or a file that cannot be opened or read, the run
panics.  If the name does not exist and `os.Stat`, `os.Create` and the write succeed,
the file is created with exactly the generated schema as content, no other entry is
touched, and `write` returns; if `os.Stat` or `os.Create` fails, nothing is created
and the run panics; if the write fails, the run panics and the created file holds the
bytes written before the failure. -/
theorem write_never_overwrites (JSONSchemaVersion : GoString) (schema : List Nat)
    (faults : os.Faults) (fs : FileSystem) :
    (fs (schemaFilename JSONSchemaVersion) ≠ none →
        (write JSONSchemaVersion schema faults fs).1 = fs) ∧
      (∀ existing, fs (schemaFilename JSONSchemaVersion) = some (Entry.file existing true) →
        faults.failOpen = false → faults.failRead = false →
        (existing = schema →
            write JSONSchemaVersion schema faults fs = (fs, Outcome.exit 0)) ∧
          (existing ≠ schema →
            write JSONSchemaVersion schema faults fs = (fs, Outcome.exit 1))) ∧
      (fs (schemaFilename JSONSchemaVersion) = some Entry.directory ∨
          (∃ existing,
            fs (schemaFilename JSONSchemaVersion) = some (Entry.file existing false)) ∨
          (fs (schemaFilename JSONSchemaVersion) ≠ none ∧
            (faults.failOpen = true ∨ faults.failRead = true)) →
        write JSONSchemaVersion schema faults fs = (fs, Outcome.panic)) ∧
      (fs (schemaFilename JSONSchemaVersion) = none →
        faults.failStat = false → faults.failCreate = false → faults.failWrite = none →
        (write JSONSchemaVersion schema faults fs).2 = Outcome.returned ∧
          (write JSONSchemaVersion schema faults fs).1 (schemaFilename JSONSchemaVersion)
            = some (Entry.file schema true) ∧
          ∀ other, other ≠ schemaFilename JSONSchemaVersion →
            (write JSONSchemaVersion schema faults fs).1 other = fs other) ∧
      (fs (schemaFilename JSONSchemaVersion) = none →
        faults.failStat = true ∨ faults.failCreate = true →
        write JSONSchemaVersion schema faults fs = (fs, Outcome.panic)) ∧
      (fs (schemaFilename JSONSchemaVersion) = none →
        faults.failStat = false → faults.failCreate = false →
        ∀ n, faults.failWrite = some n →
        (write JSONSchemaVersion schema faults fs).2 = Outcome.panic ∧
          (write JSONSchemaVersion schema faults fs).1 (schemaFilename JSONSchemaVersion)
            = some (Entry.file (schema.take n) true) ∧
          ∀ other, other ≠ schemaFilename JSONSchemaVersion →
            (write JSONSchemaVersion schema faults fs).1 other = fs other) := by
  obtain ⟨fStat, fOpen, fRead, fCreate, fWrite⟩ := faults
  refine ⟨?_, ?_, ?_, ?_, ?_, ?_⟩
  · intro h
    cases hfs : fs (schemaFilename JSONSchemaVersion) with
    | none => exact absurd hfs h
    | some entry =>
      cases entry with
      | directory =>
        cases fStat <;> cases fOpen <;>
          simp [write, os.Stat, os.IsNotExist, os.Open, io.ReadAll, hfs]
      | file bytes readable =>
        cases readable <;> cases fStat <;> cases fOpen <;> cases fRead <;>
          simp [write, os.Stat, os.IsNotExist, os.Open, io.ReadAll, hfs] <;>
          split <;> rfl
  · intro existing hfs hOpen hRead
    simp only at hOpen hRead
    subst hOpen hRead
    constructor
    · intro he
      cases fStat <;> simp [write, os.Stat, os.IsNotExist, os.Open, io.ReadAll, hfs, he]
    · intro he
      cases fStat <;> simp [write, os.Stat, os.IsNotExist, os.Open, io.ReadAll, hfs, he]
  · rintro (hfs | ⟨existing, hfs⟩ | ⟨hne, hfail⟩)
    · cases fStat <;> cases fOpen <;>
        simp [write, os.Stat, os.IsNotExist, os.Open, io.ReadAll, hfs]
    · cases fStat <;> simp [write, os.Stat, os.IsNotExist, os.Open, io.ReadAll, hfs]
    · simp only at hfail
      cases hfs : fs (schemaFilename JSONSchemaVersion) with
      | none => exact absurd hfs hne
      | some entry =>
        cases entry with
        | directory =>
          cases fStat <;> cases fOpen <;>
            simp [write, os.Stat, os.IsNotExist, os.Open, io.ReadAll, hfs]
        | file bytes readable =>
          rcases hfail with rfl | rfl <;> cases readable <;> cases fStat <;>
            simp [write, os.Stat, os.IsNotExist, os.Open, io.ReadAll, hfs] <;>
            cases fOpen <;> simp [hfs]
  · intro hfs hStat hCreate hWrite
    simp only at hStat hCreate hWrite
    subst hStat hCreate hWrite
    refine ⟨?_, ?_, ?_⟩
    · simp [write, os.Stat, os.IsNotExist, os.Create, os.File.Write, FileSystem.set, hfs]
    · simp [write, os.Stat, os.IsNotExist, os.Create, os.File.Write, FileSystem.set, hfs]
    · intro other hother
      simp [write, os.Stat, os.IsNotExist, os.Create, os.File.Write, FileSystem.set, hfs,
        hother]
  · intro hfs hfail
    simp only at hfail
    rcases hfail with rfl | rfl
    · simp [write, os.Stat, os.IsNotExist, os.Open, hfs]
    · cases fStat <;>
        simp [write, os.Stat, os.IsNotExist, os.Open, os.Create, hfs]
  · intro hfs hStat hCreate n hWrite
    simp only at hStat hCreate hWrite
    subst hStat hCreate hWrite
    refine ⟨?_, ?_, ?_⟩
    · simp [write, os.Stat, os.IsNotExist, os.Create, os.File.Write, FileSystem.set, hfs]
    · simp [write, os.Stat, os.IsNotExist, os.Create, os.File.Write, FileSystem.set, hfs]
    · intro other hother
      simp [write, os.Stat, os.IsNotExist, os.Create, os.File.Write, FileSystem.set, hfs,
        hother]

/-- The amended C17 at concrete working directories: the readable schema file of
version `7.1.1` holding `true` is left as it is, with exit status 0 for the generated
schema `true` and exit status 1 for the generated schema `false`; in the empty directory
the file is created with the content `true` and `write` returns. -/
theorem write_never_overwrites_witness :
    write (str "7.1.1") (str "true") os.noFaults readableSchemaFile
        = (readableSchemaFile, Outcome.exit 0) ∧
      write (str "7.1.1") (str "false") os.noFaults readableSchemaFile
        = (readableSchemaFile, Outcome.exit 1) ∧
      (write (str "7.1.1") (str "true") os.noFaults emptyDirectory).2 = Outcome.returned ∧
      (write (str "7.1.1") (str "true") os.noFaults emptyDirectory).1
          (schemaFilename (str "7.1.1")) = some (Entry.file (str "true") true) :=
  ⟨((write_never_overwrites (str "7.1.1") (str "true") os.noFaults readableSchemaFile).2.1
      (str "true") (by decide) rfl rfl).1 rfl,
    ((write_never_overwrites (str "7.1.1") (str "false") os.noFaults readableSchemaFile).2.1
      (str "true") (by decide) rfl rfl).2 (by decide),
    ((write_never_overwrites (str "7.1.1") (str "true") os.noFaults emptyDirectory).2.2.2.1
      rfl rfl rfl rfl).1,
    ((write_never_overwrites (str "7.1.1") (str "true") os.noFaults emptyDirectory).2.2.2.1
      rfl rfl rfl rfl).2.1⟩

/-! ## The excluding resolver -/

/-- C18: each list query of the excluding resolver (`FilesByPath`, `FilesByGlob`,
`FilesByMIMEType`) and its `AllLocations` enumeration yields exactly the locations that
the wrapped resolver yields and whose `RealPath` the predicate does not exclude, in
the order of the wrapped resolver: none that is excluded, all that are not. -/
theorem excluding_list_queries {φ : Type} (delegate : source.FileResolver φ)
    (excludeFn : GoString → Bool) (args : List GoString) :
    (((source.NewExcludingResolver delegate excludeFn).FilesByPath args).1
        = (delegate.FilesByPath args).1.filter (fun l => !excludeFn l.Coordinates.RealPath) ∧
      ((source.NewExcludingResolver delegate excludeFn).FilesByGlob args).1
        = (delegate.FilesByGlob args).1.filter (fun l => !excludeFn l.Coordinates.RealPath) ∧
      ((source.NewExcludingResolver delegate excludeFn).FilesByMIMEType args).1
        = (delegate.FilesByMIMEType args).1.filter
            (fun l => !excludeFn l.Coordinates.RealPath) ∧
      (source.NewExcludingResolver delegate excludeFn).AllLocations
        = delegate.AllLocations.filter (fun l => !excludeFn l.Coordinates.RealPath)) ∧
    (∀ l : source.Location,
      (l ∈ ((source.NewExcludingResolver delegate excludeFn).FilesByPath args).1 ↔
        (l ∈ (delegate.FilesByPath args).1 ∧ excludeFn l.Coordinates.RealPath = false)) ∧
      (l ∈ ((source.NewExcludingResolver delegate excludeFn).FilesByGlob args).1 ↔
        (l ∈ (delegate.FilesByGlob args).1 ∧ excludeFn l.Coordinates.RealPath = false)) ∧
      (l ∈ ((source.NewExcludingResolver delegate excludeFn).FilesByMIMEType args).1 ↔
        (l ∈ (delegate.FilesByMIMEType args).1 ∧ excludeFn l.Coordinates.RealPath = false)) ∧
      (l ∈ (source.NewExcludingResolver delegate excludeFn).AllLocations ↔
        (l ∈ delegate.AllLocations ∧ excludeFn l.Coordinates.RealPath = false))) := by
  refine ⟨⟨rfl, rfl, rfl, rfl⟩, ?_⟩
  intro l
  simp [source.NewExcludingResolver, source.filterLocations, List.mem_filter]

/-- C19, as the claim states it, fails: the wrapped resolver may resolve the path `b`
to a location elsewhere (here `/app/b`); the predicate excludes `b`, and
`RelativeFileByPath` to `b` still returns that location, not `nil`. -/
theorem excluding_relative_path_not_nil :
    (fun p => p == str "b") (str "b") = true ∧
      (source.NewExcludingResolver (source.rootedResolver [str "a", str "b"])
          (fun p => p == str "b")).RelativeFileByPath (source.makeLocation (str "")) (str "b")
        = some { Coordinates := { RealPath := str "/app/b", FileSystemID := str "" },
                 VirtualPath := str "" } := by
  decide

/-- C19, amended: if the predicate excludes `p`, then `HasPath(p)` is false and
`FileContentsByLocation` and `FileMetadataByLocation` for a location with `RealPath`
`p` return the error `NotFound` with no content and the empty metadata, whatever the
wrapped resolver returns; if the predicate does not exclude `p`, each of these returns
what the wrapped resolver returns.  `RelativeFileByPath` is filtered by the `RealPath`
of the location that the wrapped resolver returns: it returns `nil` when the wrapped
resolver does or when that `RealPath` is excluded, and the location of the wrapped
resolver otherwise; so for a wrapped resolver that resolves `p` to a location with
`RealPath` `p` it returns `nil` if `p` is excluded and that location if not. -/
theorem excluding_point_queries {φ : Type} (delegate : source.FileResolver φ)
    (excludeFn : GoString → Bool) (p : GoString) :
    (excludeFn p = true →
        (source.NewExcludingResolver delegate excludeFn).HasPath p = false ∧
          ∀ l : source.Location, l.Coordinates.RealPath = p →
            (source.NewExcludingResolver delegate excludeFn).FileContentsByLocation l
                = (none, some source.ResolverError.NotFound) ∧
              (source.NewExcludingResolver delegate excludeFn).FileMetadataByLocation l
                = (source.FileMetadata.zero, some source.ResolverError.NotFound)) ∧
      (excludeFn p = false →
        (source.NewExcludingResolver delegate excludeFn).HasPath p = delegate.HasPath p ∧
          ∀ l : source.Location, l.Coordinates.RealPath = p →
            (source.NewExcludingResolver delegate excludeFn).FileContentsByLocation l
                = delegate.FileContentsByLocation l ∧
              (source.NewExcludingResolver delegate excludeFn).FileMetadataByLocation l
                = delegate.FileMetadataByLocation l) ∧
      (∀ base : source.Location,
        (delegate.RelativeFileByPath base p = none →
          (source.NewExcludingResolver delegate excludeFn).RelativeFileByPath base p = none) ∧
        (∀ l, delegate.RelativeFileByPath base p = some l →
          (excludeFn l.Coordinates.RealPath = true →
            (source.NewExcludingResolver delegate excludeFn).RelativeFileByPath base p
              = none) ∧
          (excludeFn l.Coordinates.RealPath = false →
            (source.NewExcludingResolver delegate excludeFn).RelativeFileByPath base p
              = some l) ∧
          (l.Coordinates.RealPath = p →
            (source.NewExcludingResolver delegate excludeFn).RelativeFileByPath base p
              = if excludeFn p then none else some l))) := by
  refine ⟨?_, ?_, ?_⟩
  · intro h
    refine ⟨by simp [source.NewExcludingResolver, h], ?_⟩
    intro l hl
    simp [source.NewExcludingResolver, hl, h]
  · intro h
    refine ⟨by simp [source.NewExcludingResolver, h], ?_⟩
    intro l hl
    simp [source.NewExcludingResolver, hl, h]
  · intro base
    refine ⟨?_, ?_⟩
    · intro h
      simp [source.NewExcludingResolver, h]
    · intro l h
      refine ⟨?_, ?_, ?_⟩
      · intro he
        simp [source.NewExcludingResolver, h, he]
      · intro he
        simp [source.NewExcludingResolver, h, he]
      · intro hl
        simp [source.NewExcludingResolver, h, hl]

/-! ## Package types -/

/-- C20: the constant `GraalVMNativeImagePkg` is declared in the const block of the
supported packages, it is not the placeholder `UnknownPkg`, and it is not an element of
`AllPkgs`.  Every other declared constant except `UnknownPkg` is in `AllPkgs`, and
`AllPkgs` holds declared constants only. -/
theorem AllPkgs_misses_GraalVM :
    (pkg.GraalVMNativeImagePkg ∈ pkg.declaredTypes ∧
      pkg.GraalVMNativeImagePkg ≠ pkg.UnknownPkg ∧
      pkg.GraalVMNativeImagePkg ∉ pkg.AllPkgs) ∧
    (∀ t ∈ pkg.declaredTypes, t ≠ pkg.UnknownPkg → t ≠ pkg.GraalVMNativeImagePkg →
      t ∈ pkg.AllPkgs) ∧
    (∀ t ∈ pkg.AllPkgs, t ∈ pkg.declaredTypes ∧ t ≠ pkg.UnknownPkg) := by
  decide

/-! ## The joins of `toFile` -/

/-- C23: `toFile` returns exactly one `File` per element of `s.AllCoordinates()`: its
list is a rearrangement of the files built from the coordinates one by one, and has
their number.  The file for the coordinates `c` has the location `c`, the metadata
`toFileMetadataEntry` of `FileMetadata[c]` when `c` is a key of that map and `nil`
otherwise, the digests `FileDigests[c]` when present and `nil` otherwise, and the
contents `FileContents[c]` when present and the empty string otherwise. -/
theorem toFile_spec {δ σ ρ κ ι : Type} (S : sort.StableSorter (model.File ρ))
    (coordinatesID : source.Coordinates → GoString)
    (AllCoordinates : sbom.SBOM δ σ ρ κ ι → List source.Coordinates)
    (s : sbom.SBOM δ σ ρ κ ι) :
    (toFile S coordinatesID AllCoordinates s).toList.Perm
        ((AllCoordinates s).map fun c =>
          { ID := coordinatesID c
            Location := c
            Metadata :=
              match lookup c s.Artifacts.FileMetadata with
              | some metadata => toFileMetadataEntry c (some metadata)
              | none => none
            Digests :=
              match lookup c s.Artifacts.FileDigests with
              | some digests => digests
              | none => Slice.nil
            Contents :=
              match lookup c s.Artifacts.FileContents with
              | some contents => contents
              | none => str "" }) ∧
      (toFile S coordinatesID AllCoordinates s).toList.length = (AllCoordinates s).length := by
  have h : (toFile S coordinatesID AllCoordinates s).toList.Perm
      ((AllCoordinates s).map fun c =>
        { ID := coordinatesID c
          Location := c
          Metadata :=
            match lookup c s.Artifacts.FileMetadata with
            | some metadata => toFileMetadataEntry c (some metadata)
            | none => none
          Digests :=
            match lookup c s.Artifacts.FileDigests with
            | some digests => digests
            | none => Slice.nil
          Contents :=
            match lookup c s.Artifacts.FileContents with
            | some contents => contents
            | none => str "" }) := by
    simp only [toFile, Slice.toList]
    refine (S.perm _ _).trans ?_
    rw [foldl_append_eq_map, List.nil_append]
    apply List.Perm.of_eq
    apply List.map_congr_left
    intro c _
    cases lookup c s.Artifacts.FileMetadata <;> rfl
  exact ⟨h, by rw [h.length_eq, List.length_map]⟩

/-! ## Selection by name, continued -/

/-- C29: a cataloger name that, with one trailing `-cataloger` stripped, is neither
empty nor `cataloger`, is matched by itself as the only pattern. -/
theorem contains_own_name (n : GoString)
    (h₁ : strings.TrimSuffix n (str "-cataloger") ≠ str "")
    (h₂ : strings.TrimSuffix n (str "-cataloger") ≠ str "cataloger") :
    contains [n] n = true := by
  have hidx : ∀ t : GoString, strings.Index t t = 0 := by
    intro t
    cases t with
    | nil => simp [strings.Index, strings.indexFrom, strings.HasPrefix]
    | cons c t => simp [strings.Index, strings.indexFrom, strings.HasPrefix]
  simp [contains, containsLoop, hasFullWord, h₁, h₂, hidx, len]

theorem contains_own_name_witness :
    strings.TrimSuffix (str "go-mod-cataloger") (str "-cataloger") ≠ str "" ∧
      strings.TrimSuffix (str "go-mod-cataloger") (str "-cataloger") ≠ str "cataloger" ∧
      contains [str "go-mod-cataloger"] (str "go-mod-cataloger") = true :=
  ⟨by decide, by decide, contains_own_name (str "go-mod-cataloger") (by decide) (by decide)⟩

/-- C30: `filterCatalogers` is idempotent in its cataloger list: filtering the result
again with the same patterns changes nothing. -/
theorem filterCatalogers_idempotent {κ : Type} (Name : κ → GoString) (cs : List κ)
    (ps : List GoString) :
    filterCatalogers Name (filterCatalogers Name cs ps) ps = filterCatalogers Name cs ps := by
  by_cases hne : ps = []
  · subst hne; rfl
  · by_cases hall : AllCatalogersPattern ∈ ps
    · have h2 : requestsAll ps = true := (requestsAll_iff ps).mpr hall
      simp [filterCatalogers, h2]
    · rw [filterCatalogers_eq_filter Name cs ps hne hall,
        filterCatalogers_eq_filter Name _ ps hne hall, List.filter_filter]
      simp

/-! ## Lemmas on the package types -/

theorem PackageURLType_empty_iff_aux (P : packageurl.Types)
    (hne : ∀ n ∈ pkg.recognisedNames P, n ≠ str "") (t : pkg.Type_) :
    pkg.PackageURLType P t = str "" ↔
      (t = pkg.BinaryPkg ∨ t = pkg.KbPkg ∨ t = pkg.GraalVMNativeImagePkg ∨ t = pkg.UnknownPkg ∨
        t ∉ pkg.declaredTypes) := by
  unfold pkg.PackageURLType
  by_cases h0 : t = pkg.AlpmPkg
  · rw [if_pos h0]
    subst h0
    constructor
    · intro h
      exact absurd h (by decide)
    · intro h
      exact absurd h (by decide)
  rw [if_neg h0]
  by_cases h1 : t = pkg.ApkPkg
  · rw [if_pos h1]
    subst h1
    constructor
    · intro h
      exact absurd h (hne _ (by simp [pkg.recognisedNames]))
    · intro h
      exact absurd h (by decide)
  rw [if_neg h1]
  by_cases h2 : t = pkg.CocoapodsPkg
  · rw [if_pos h2]
    subst h2
    constructor
    · intro h
      exact absurd h (hne _ (by simp [pkg.recognisedNames]))
    · intro h
      exact absurd h (by decide)
  rw [if_neg h2]
  by_cases h3 : t = pkg.ConanPkg
  · rw [if_pos h3]
    subst h3
    constructor
    · intro h
      exact absurd h (hne _ (by simp [pkg.recognisedNames]))
    · intro h
      exact absurd h (by decide)
  rw [if_neg h3]
  by_cases h4 : t = pkg.DartPubPkg
  · rw [if_pos h4]
    subst h4
    constructor
    · intro h
      exact absurd h (hne _ (by simp [pkg.recognisedNames]))
    · intro h
      exact absurd h (by decide)
  rw [if_neg h4]
  by_cases h5 : t = pkg.DebPkg
  · rw [if_pos h5]
    subst h5
    constructor
    · intro h
      exact absurd h (by decide)
    · intro h
      exact absurd h (by decide)
  rw [if_neg h5]
  by_cases h6 : t = pkg.DotnetPkg
  · rw [if_pos h6]
    subst h6
    constructor
    · intro h
      exact absurd h (hne _ (by simp [pkg.recognisedNames]))
    · intro h
      exact absurd h (by decide)
  rw [if_neg h6]
  by_cases h7 : t = pkg.GemPkg
  · rw [if_pos h7]
    subst h7
    constructor
    · intro h
      exact absurd h (hne _ (by simp [pkg.recognisedNames]))
    · intro h
      exact absurd h (by decide)
  rw [if_neg h7]
  by_cases h8 : t = pkg.HexPkg
  · rw [if_pos h8]
    subst h8
    constructor
    · intro h
      exact absurd h (hne _ (by simp [pkg.recognisedNames]))
    · intro h
      exact absurd h (by decide)
  rw [if_neg h8]
  by_cases h9 : t = pkg.GoModulePkg
  · rw [if_pos h9]
    subst h9
    constructor
    · intro h
      exact absurd h (hne _ (by simp [pkg.recognisedNames]))
    · intro h
      exact absurd h (by decide)
  rw [if_neg h9]
  by_cases h10 : t = pkg.HackagePkg
  · rw [if_pos h10]
    subst h10
    constructor
    · intro h
      exact absurd h (hne _ (by simp [pkg.recognisedNames]))
    · intro h
      exact absurd h (by decide)
  rw [if_neg h10]
  by_cases h11 : t = pkg.JavaPkg ∨ t = pkg.JenkinsPluginPkg
  · rw [if_pos h11]
    rcases h11 with rfl | rfl
    · constructor
      · intro h
        exact absurd h (hne _ (by simp [pkg.recognisedNames]))
      · intro h
        exact absurd h (by decide)
    · constructor
      · intro h
        exact absurd h (hne _ (by simp [pkg.recognisedNames]))
      · intro h
        exact absurd h (by decide)
  rw [if_neg h11]
  by_cases h12 : t = pkg.PhpComposerPkg
  · rw [if_pos h12]
    subst h12
    constructor
    · intro h
      exact absurd h (hne _ (by simp [pkg.recognisedNames]))
    · intro h
      exact absurd h (by decide)
  rw [if_neg h12]
  by_cases h13 : t = pkg.PythonPkg
  · rw [if_pos h13]
    subst h13
    constructor
    · intro h
      exact absurd h (hne _ (by simp [pkg.recognisedNames]))
    · intro h
      exact absurd h (by decide)
  rw [if_neg h13]
  by_cases h14 : t = pkg.PortagePkg
  · rw [if_pos h14]
    subst h14
    constructor
    · intro h
      exact absurd h (by decide)
    · intro h
      exact absurd h (by decide)
  rw [if_neg h14]
  by_cases h15 : t = pkg.NixPkg
  · rw [if_pos h15]
    subst h15
    constructor
    · intro h
      exact absurd h (by decide)
    · intro h
      exact absurd h (by decide)
  rw [if_neg h15]
  by_cases h16 : t = pkg.NpmPkg
  · rw [if_pos h16]
    subst h16
    constructor
    · intro h
      exact absurd h (hne _ (by simp [pkg.recognisedNames]))
    · intro h
      exact absurd h (by decide)
  rw [if_neg h16]
  by_cases h17 : t = pkg.RpmPkg
  · rw [if_pos h17]
    subst h17
    constructor
    · intro h
      exact absurd h (hne _ (by simp [pkg.recognisedNames]))
    · intro h
      exact absurd h (by decide)
  rw [if_neg h17]
  by_cases h18 : t = pkg.RustPkg
  · rw [if_pos h18]
    subst h18
    constructor
    · intro h
      exact absurd h (by decide)
    · intro h
      exact absurd h (by decide)
  rw [if_neg h18]
  refine ⟨fun _ => ?_, fun _ => rfl⟩
  by_cases hb : t = pkg.BinaryPkg
  · exact Or.inl hb
  by_cases hk : t = pkg.KbPkg
  · exact Or.inr (Or.inl hk)
  by_cases hg : t = pkg.GraalVMNativeImagePkg
  · exact Or.inr (Or.inr (Or.inl hg))
  by_cases hu : t = pkg.UnknownPkg
  · exact Or.inr (Or.inr (Or.inr (Or.inl hu)))
  refine Or.inr (Or.inr (Or.inr (Or.inr ?_)))
  intro hmem
  simp only [pkg.declaredTypes, List.mem_cons, List.mem_singleton, List.not_mem_nil,
    or_false] at hmem
  push_neg at h11
  rcases hmem with h | h | h | h | h | h | h | h | h | h | h | h | h | h | h | h | h | h | h | h
    | h | h | h | h
  all_goals first
    | exact hu h | exact h0 h | exact h1 h | exact hb h | exact h2 h | exact h3 h | exact h4 h
    | exact h5 h | exact h6 h | exact h7 h | exact h9 h | exact hg h | exact h10 h
    | exact h8 h | exact h11.1 h | exact h11.2 h | exact hk h | exact h15 h | exact h16 h
    | exact h12 h | exact h14 h | exact h13 h | exact h17 h | exact h18 h

theorem TypeByName_range (P : packageurl.Types) (name : GoString) :
    (pkg.TypeByName P name = pkg.UnknownPkg ∨ pkg.TypeByName P name ∈ pkg.AllPkgs) ∧
      pkg.TypeByName P name ≠ pkg.BinaryPkg ∧ pkg.TypeByName P name ≠ pkg.KbPkg ∧
      pkg.TypeByName P name ≠ pkg.JenkinsPluginPkg ∧
      pkg.TypeByName P name ≠ pkg.GraalVMNativeImagePkg := by
  unfold pkg.TypeByName
  by_cases h0 : name = P.TypeDebian
  · rw [if_pos h0]
    decide
  rw [if_neg h0]
  by_cases h1 : name = P.TypeRPM
  · rw [if_pos h1]
    decide
  rw [if_neg h1]
  by_cases h2 : name = str "alpm"
  · rw [if_pos h2]
    decide
  rw [if_neg h2]
  by_cases h3 : name = P.TypeAlpine ∨ name = str "alpine"
  · rw [if_pos h3]
    decide
  rw [if_neg h3]
  by_cases h4 : name = P.TypeMaven
  · rw [if_pos h4]
    decide
  rw [if_neg h4]
  by_cases h5 : name = P.TypeComposer
  · rw [if_pos h5]
    decide
  rw [if_neg h5]
  by_cases h6 : name = P.TypeGolang
  · rw [if_pos h6]
    decide
  rw [if_neg h6]
  by_cases h7 : name = P.TypeNPM
  · rw [if_pos h7]
    decide
  rw [if_neg h7]
  by_cases h8 : name = P.TypePyPi
  · rw [if_pos h8]
    decide
  rw [if_neg h8]
  by_cases h9 : name = P.TypeGem
  · rw [if_pos h9]
    decide
  rw [if_neg h9]
  by_cases h10 : name = str "cargo" ∨ name = str "crate"
  · rw [if_pos h10]
    decide
  rw [if_neg h10]
  by_cases h11 : name = P.TypePub
  · rw [if_pos h11]
    decide
  rw [if_neg h11]
  by_cases h12 : name = P.TypeDotnet
  · rw [if_pos h12]
    decide
  rw [if_neg h12]
  by_cases h13 : name = P.TypeCocoapods
  · rw [if_pos h13]
    decide
  rw [if_neg h13]
  by_cases h14 : name = P.TypeConan
  · rw [if_pos h14]
    decide
  rw [if_neg h14]
  by_cases h15 : name = P.TypeHackage
  · rw [if_pos h15]
    decide
  rw [if_neg h15]
  by_cases h16 : name = str "portage"
  · rw [if_pos h16]
    decide
  rw [if_neg h16]
  by_cases h17 : name = P.TypeHex
  · rw [if_pos h17]
    decide
  rw [if_neg h17]
  by_cases h18 : name = str "nix"
  · rw [if_pos h18]
    decide
  rw [if_neg h18]
  decide

theorem TypeByName_unrecognised (P : packageurl.Types) (name : GoString)
    (h : name ∉ pkg.recognisedNames P) : pkg.TypeByName P name = pkg.UnknownPkg := by
  simp only [pkg.recognisedNames, List.mem_cons, List.mem_singleton, List.not_mem_nil,
    or_false, not_or] at h
  obtain ⟨k0, k1, k2, k3, k4, k5, k6, k7, k8, k9, k10, k11, k12, k13, k14, k15, k16, k17, k18,
    k19, k20⟩ := h
  unfold pkg.TypeByName
  rw [if_neg k0, if_neg k1, if_neg k2, if_neg (not_or.mpr ⟨k3, k4⟩), if_neg k5, if_neg k6,
    if_neg k7, if_neg k8, if_neg k9, if_neg k10, if_neg (not_or.mpr ⟨k11, k12⟩), if_neg k13,
    if_neg k14, if_neg k15, if_neg k16, if_neg k17, if_neg k18, if_neg k19, if_neg k20]

/-- Under distinct labels, `TypeByName` maps each PURL type that `PackageURLType`
returns to the type of its case. -/
theorem TypeByName_labels (P : packageurl.Types) (hd : (pkg.recognisedNames P).Nodup)
    (hdeb : P.TypeDebian = str "deb") :
    pkg.TypeByName P (str "alpm") = pkg.AlpmPkg ∧
      pkg.TypeByName P (P.TypeAlpine) = pkg.ApkPkg ∧
      pkg.TypeByName P (P.TypeCocoapods) = pkg.CocoapodsPkg ∧
      pkg.TypeByName P (P.TypeConan) = pkg.ConanPkg ∧
      pkg.TypeByName P (P.TypePub) = pkg.DartPubPkg ∧
      pkg.TypeByName P (str "deb") = pkg.DebPkg ∧
      pkg.TypeByName P (P.TypeDotnet) = pkg.DotnetPkg ∧
      pkg.TypeByName P (P.TypeGem) = pkg.GemPkg ∧
      pkg.TypeByName P (P.TypeGolang) = pkg.GoModulePkg ∧
      pkg.TypeByName P (P.TypeHackage) = pkg.HackagePkg ∧
      pkg.TypeByName P (P.TypeHex) = pkg.HexPkg ∧
      pkg.TypeByName P (P.TypeMaven) = pkg.JavaPkg ∧
      pkg.TypeByName P (str "nix") = pkg.NixPkg ∧
      pkg.TypeByName P (P.TypeNPM) = pkg.NpmPkg ∧
      pkg.TypeByName P (P.TypeComposer) = pkg.PhpComposerPkg ∧
      pkg.TypeByName P (str "portage") = pkg.PortagePkg ∧
      pkg.TypeByName P (P.TypePyPi) = pkg.PythonPkg ∧
      pkg.TypeByName P (P.TypeRPM) = pkg.RpmPkg ∧
      pkg.TypeByName P (str "cargo") = pkg.RustPkg := by
  have h1 := hd
  have h2 := List.nodup_reverse.mpr hd
  simp only [pkg.recognisedNames, List.nodup_cons, List.mem_cons, List.mem_singleton, not_or,
    List.not_mem_nil, List.reverse_cons, List.reverse_nil, List.nil_append, List.cons_append,
    List.singleton_append] at h1 h2
  refine ⟨?_, ?_, ?_, ?_, ?_, ?_, ?_, ?_, ?_, ?_, ?_, ?_, ?_, ?_, ?_, ?_, ?_, ?_, ?_⟩
  · simp [pkg.TypeByName, h1, h2]
  · simp [pkg.TypeByName, h1, h2]
  · simp [pkg.TypeByName, h1, h2]
  · simp [pkg.TypeByName, h1, h2]
  · simp [pkg.TypeByName, h1, h2]
  · simp [pkg.TypeByName, hdeb]
  · simp [pkg.TypeByName, h1, h2]
  · simp [pkg.TypeByName, h1, h2]
  · simp [pkg.TypeByName, h1, h2]
  · simp [pkg.TypeByName, h1, h2]
  · simp [pkg.TypeByName, h1, h2]
  · simp [pkg.TypeByName, h1, h2]
  · simp [pkg.TypeByName, h1, h2]
  · simp [pkg.TypeByName, h1, h2]
  · simp [pkg.TypeByName, h1, h2]
  · simp [pkg.TypeByName, h1, h2]
  · simp [pkg.TypeByName, h1, h2]
  · simp [pkg.TypeByName, h1, h2]
  · simp [pkg.TypeByName, h1, h2]

/-! ## Package types and PURL types -/

/-- C25: `t.PackageURLType()` is the empty string exactly when `t` is `BinaryPkg`,
`KbPkg`, `GraalVMNativeImagePkg`, `UnknownPkg` or no declared package type constant;
for every other declared type it is a PURL type that is not empty.  The constants of
package `packageurl` are taken to be not empty. -/
theorem PackageURLType_empty_iff (P : packageurl.Types)
    (hne : ∀ n ∈ pkg.recognisedNames P, n ≠ str "") (t : pkg.Type_) :
    (pkg.PackageURLType P t = str "" ↔
        (t = pkg.BinaryPkg ∨ t = pkg.KbPkg ∨ t = pkg.GraalVMNativeImagePkg ∨
          t = pkg.UnknownPkg ∨ t ∉ pkg.declaredTypes)) ∧
      (t ∈ pkg.declaredTypes → t ≠ pkg.BinaryPkg → t ≠ pkg.KbPkg →
        t ≠ pkg.GraalVMNativeImagePkg → t ≠ pkg.UnknownPkg →
        pkg.PackageURLType P t ≠ str "") := by
  refine ⟨PackageURLType_empty_iff_aux P hne t, ?_⟩
  intro hmem hB hK hG hU hempty
  rcases (PackageURLType_empty_iff_aux P hne t).mp hempty with h | h | h | h | h
  · exact hB h
  · exact hK h
  · exact hG h
  · exact hU h
  · exact h hmem

theorem PackageURLType_empty_iff_witness :
    (∀ n ∈ pkg.recognisedNames packageurl.purlTypes, n ≠ str "") ∧
      pkg.PackageURLType packageurl.purlTypes pkg.RpmPkg ≠ str "" ∧
      pkg.PackageURLType packageurl.purlTypes pkg.KbPkg = str "" :=
  ⟨by decide,
    (PackageURLType_empty_iff packageurl.purlTypes (by decide) pkg.RpmPkg).2 (by decide)
      (by decide) (by decide) (by decide) (by decide),
    (PackageURLType_empty_iff packageurl.purlTypes (by decide) pkg.KbPkg).1.mpr
      (Or.inr (Or.inl rfl))⟩

/-- C26: for every package type in `AllPkgs` other than `BinaryPkg`, `KbPkg` and
`JenkinsPluginPkg`, mapping the type to its PURL type and back gives the type again;
for `JenkinsPluginPkg` the round trip gives `JavaPkg`, and for `BinaryPkg` and `KbPkg`
it gives `UnknownPkg`.  The constants of package `packageurl` are taken to be
distinct from each other and from the literal labels of `TypeByName`, not empty, with
`TypeDebian` equal to `deb`. -/
theorem purl_round_trip (P : packageurl.Types) (hd : (pkg.recognisedNames P).Nodup)
    (hne : ∀ n ∈ pkg.recognisedNames P, n ≠ str "") (hdeb : P.TypeDebian = str "deb") :
    (∀ t ∈ pkg.AllPkgs, t ≠ pkg.BinaryPkg → t ≠ pkg.KbPkg → t ≠ pkg.JenkinsPluginPkg →
        pkg.TypeByName P (pkg.PackageURLType P t) = t) ∧
      pkg.TypeByName P (pkg.PackageURLType P pkg.JenkinsPluginPkg) = pkg.JavaPkg ∧
      pkg.TypeByName P (pkg.PackageURLType P pkg.BinaryPkg) = pkg.UnknownPkg ∧
      pkg.TypeByName P (pkg.PackageURLType P pkg.KbPkg) = pkg.UnknownPkg := by
  obtain ⟨v0, v1, v2, v3, v4, v5, v6, v7, v8, v9, v10, v11, v12, v13, v14, v15, v16, v17, v18⟩ := TypeByName_labels P hd hdeb
  have hempty : pkg.TypeByName P (str "") = pkg.UnknownPkg :=
    TypeByName_unrecognised P (str "") (fun hmem => hne _ hmem rfl)
  refine ⟨?_, ?_, hempty, hempty⟩
  · intro t ht hB hK hJ
    simp only [pkg.AllPkgs, List.mem_cons, List.mem_singleton, List.not_mem_nil, or_false] at ht
    rcases ht with rfl | rfl | rfl | rfl | rfl | rfl | rfl | rfl | rfl | rfl | rfl | rfl | rfl | rfl | rfl | rfl | rfl | rfl | rfl | rfl | rfl | rfl
    · exact v0
    · exact v1
    · exact absurd rfl hB
    · exact v2
    · exact v3
    · exact v4
    · exact v5
    · exact v6
    · exact v7
    · exact v8
    · exact v9
    · exact v10
    · exact v11
    · exact absurd rfl hJ
    · exact absurd rfl hK
    · exact v12
    · exact v13
    · exact v14
    · exact v15
    · exact v16
    · exact v17
    · exact v18
  · exact v11

theorem purl_round_trip_witness :
    (pkg.recognisedNames packageurl.purlTypes).Nodup ∧
      (∀ n ∈ pkg.recognisedNames packageurl.purlTypes, n ≠ str "") ∧
      packageurl.purlTypes.TypeDebian = str "deb" ∧
      pkg.TypeByName packageurl.purlTypes (pkg.PackageURLType packageurl.purlTypes pkg.RpmPkg)
        = pkg.RpmPkg ∧
      pkg.TypeByName packageurl.purlTypes
          (pkg.PackageURLType packageurl.purlTypes pkg.JenkinsPluginPkg) = pkg.JavaPkg :=
  ⟨by decide, by decide, rfl,
    (purl_round_trip packageurl.purlTypes (by decide) (by decide) rfl).1 pkg.RpmPkg
      (by decide) (by decide) (by decide) (by decide),
    (purl_round_trip packageurl.purlTypes (by decide) (by decide) rfl).2.1⟩

/-- C27: `TypeByName(name)` is `UnknownPkg` or an element of `AllPkgs`; it is
`UnknownPkg` for every name that is not a label of the switch, the empty string among
them when no constant of package `packageurl` is empty; it is never `BinaryPkg`,
`KbPkg`, `JenkinsPluginPkg` or `GraalVMNativeImagePkg`.  `TypeFromPURL` returns
`UnknownPkg` when the PURL string fails to parse and `TypeByName` of the parsed type
otherwise. -/
theorem TypeByName_spec {ε : Type} (P : packageurl.Types)
    (FromString : GoString → Except ε packageurl.PackageURL) (name p : GoString) :
    ((pkg.TypeByName P name = pkg.UnknownPkg ∨ pkg.TypeByName P name ∈ pkg.AllPkgs) ∧
        (name ∉ pkg.recognisedNames P → pkg.TypeByName P name = pkg.UnknownPkg) ∧
        ((∀ n ∈ pkg.recognisedNames P, n ≠ str "") →
          pkg.TypeByName P (str "") = pkg.UnknownPkg) ∧
        pkg.TypeByName P name ≠ pkg.BinaryPkg ∧ pkg.TypeByName P name ≠ pkg.KbPkg ∧
        pkg.TypeByName P name ≠ pkg.JenkinsPluginPkg ∧
        pkg.TypeByName P name ≠ pkg.GraalVMNativeImagePkg) ∧
      (∀ e, FromString p = Except.error e →
        pkg.TypeFromPURL P FromString p = pkg.UnknownPkg) ∧
      (∀ purl, FromString p = Except.ok purl →
        pkg.TypeFromPURL P FromString p = pkg.TypeByName P purl.Type_) := by
  obtain ⟨h1, h2, h3, h4, h5⟩ := TypeByName_range P name
  refine ⟨⟨h1, TypeByName_unrecognised P name, ?_, h2, h3, h4, h5⟩, ?_, ?_⟩
  · intro hne
    exact TypeByName_unrecognised P (str "") (fun hmem => hne _ hmem rfl)
  · intro e he
    simp [pkg.TypeFromPURL, he]
  · intro purl hp
    simp [pkg.TypeFromPURL, hp]

/-! ## The schema of the package metadata -/

theorem metadataNames_foldl {ν : Type} (definitions : GoMap GoString ν) (acc : List GoString) :
    definitions.foldl
        (fun metadataNames entry =>
          if entry.1 = str "artifactMetadataContainer" then metadataNames
          else if strings.HasSuffix entry.1 (str "Metadata") then metadataNames ++ [entry.1]
          else metadataNames)
        acc
      = acc ++ (definitions.map Prod.fst).filter
          (fun name => decide (name ≠ str "artifactMetadataContainer") &&
            strings.HasSuffix name (str "Metadata")) := by
  induction definitions generalizing acc with
  | nil => simp
  | cons entry rest ih =>
    rw [List.foldl_cons, ih]
    by_cases h1 : entry.1 = str "artifactMetadataContainer"
    · simp [h1, List.filter_cons]
    · by_cases h2 : strings.HasSuffix entry.1 (str "Metadata") = true
      · simp [h1, h2, List.filter_cons]
      · simp [h1, h2, List.filter_cons]

theorem metadataTypes_eq {ν : Type} (S : sort.SliceSorter GoString)
    (definitions : GoMap GoString ν) :
    metadataTypes S definitions
      = [(str "type", str "null")] ::
          (S.run (fun a b => decide (a < b))
            ((definitions.map Prod.fst).filter
              (fun name => decide (name ≠ str "artifactMetadataContainer") &&
                strings.HasSuffix name (str "Metadata")))).map
            (fun name => [(str "$ref", str "#/$defs/" ++ name)]) := by
  unfold metadataTypes
  rw [metadataNames_foldl, foldl_append_eq_map]
  rfl

theorem sortStrings_sorted (S : sort.SliceSorter GoString) (l : List GoString)
    (h : l.Nodup) : (S.run (fun a b => decide (a < b)) l).Sorted (· < ·) := by
  have hle : (S.run (fun a b => decide (a < b)) l).Pairwise (fun a b => a ≤ b) :=
    run_sorted_by_key S (fun a : GoString => a) (fun a b => decide (a < b)) (fun _ _ => rfl) l
  have hnodup : (S.run (fun a b => decide (a < b)) l).Nodup :=
    (S.perm (fun a b => decide (a < b)) l).nodup_iff.mpr h
  exact List.Sorted.lt_of_le hle hnodup

theorem sortStrings_unique (S S' : sort.SliceSorter GoString) (l l' : List GoString)
    (hp : l'.Perm l) :
    S'.run (fun a b => decide (a < b)) l' = S.run (fun a b => decide (a < b)) l := by
  apply List.eq_of_perm_of_sorted (r := (· ≤ ·))
  · exact ((S'.perm _ l').trans hp).trans (S.perm _ l).symm
  · exact run_sorted_by_key S' (fun a : GoString => a) _ (fun _ _ => rfl) l'
  · exact run_sorted_by_key S (fun a : GoString => a) _ (fun _ _ => rfl) l

/-- C24: the `anyOf` list that `build` sets for `Package.metadata` is the entry for
`null` followed by the `$ref` entries of the definition names that end in `Metadata`
(`artifactMetadataContainer` left out), each once and in ascending order of the names;
it is the same list for every order in which the definitions map is enumerated and
every run of the sort. -/
theorem metadataTypes_spec {ν : Type} (S S' : sort.SliceSorter GoString)
    (definitions definitions' : GoMap GoString ν)
    (hkeys : (definitions.map Prod.fst).Nodup) (hperm : definitions'.Perm definitions) :
    ∃ names : List GoString,
      metadataTypes S definitions
          = [(str "type", str "null")] ::
              names.map (fun name => [(str "$ref", str "#/$defs/" ++ name)]) ∧
        names.Sorted (· < ·) ∧
        (∀ name, name ∈ names ↔
          (name ∈ definitions.map Prod.fst ∧ strings.HasSuffix name (str "Metadata") = true ∧
            name ≠ str "artifactMetadataContainer")) ∧
        metadataTypes S' definitions' = metadataTypes S definitions := by
  refine ⟨_, metadataTypes_eq S definitions, ?_, ?_, ?_⟩
  · exact sortStrings_sorted S _ (hkeys.filter _)
  · intro name
    rw [(S.perm _ _).mem_iff, List.mem_filter]
    simp only [Bool.and_eq_true, decide_eq_true_eq]
    tauto
  · rw [metadataTypes_eq, metadataTypes_eq,
      sortStrings_unique S S' _ _ ((hperm.map Prod.fst).filter _)]

theorem metadataTypes_spec_witness :
    (sampleDefinitions.map Prod.fst).Nodup ∧ sampleDefinitions.reverse.Perm sampleDefinitions ∧
      metadataTypes (insertionSorter _) sampleDefinitions.reverse
        = metadataTypes (insertionSorter _) sampleDefinitions ∧
      metadataTypes (insertionSorter _) sampleDefinitions
        = [[(str "type", str "null")], [(str "$ref", str "#/$defs/ApkMetadata")],
            [(str "$ref", str "#/$defs/RpmMetadata")]] :=
  ⟨by decide, List.reverse_perm _,
    (metadataTypes_spec (insertionSorter _) (insertionSorter _) sampleDefinitions
      sampleDefinitions.reverse (by decide) (List.reverse_perm _)).elim
      (fun _ h => h.2.2.2),
    by decide⟩

/-! ## The first occurrence -/

theorem HasPrefix_iff (s pre : GoString) :
    strings.HasPrefix s pre = true ↔ pre.length ≤ s.length ∧ s.take pre.length = pre := by
  simp [strings.HasPrefix]

theorem indexFrom_spec (sub s : GoString) (k : Nat) :
    (strings.indexFrom sub s k = -1 ∧
        ∀ j, j ≤ s.length → strings.HasPrefix (s.drop j) sub = false) ∨
      (∃ i, i ≤ s.length ∧ strings.indexFrom sub s k = ((k + i : Nat) : Int) ∧
        strings.HasPrefix (s.drop i) sub = true ∧
        ∀ j, j < i → strings.HasPrefix (s.drop j) sub = false) := by
  induction s generalizing k with
  | nil =>
    unfold strings.indexFrom
    by_cases h : strings.HasPrefix [] sub = true
    · right
      exact ⟨0, Nat.le_refl _, by simp [h], by simpa using h, fun j hj => absurd hj (Nat.not_lt_zero j)⟩
    · left
      refine ⟨by simp [h], ?_⟩
      intro j _
      simpa using h
  | cons c s ih =>
    unfold strings.indexFrom
    by_cases h : strings.HasPrefix (c :: s) sub = true
    · right
      exact ⟨0, Nat.zero_le _, by simp [h], by simpa using h,
        fun j hj => absurd hj (Nat.not_lt_zero j)⟩
    · have hfalse : strings.HasPrefix (c :: s) sub = false := by
        cases hc : strings.HasPrefix (c :: s) sub with
        | false => rfl
        | true => exact absurd hc h
      simp only [hfalse, Bool.false_eq_true, if_false]
      rcases ih (k + 1) with ⟨h1, h2⟩ | ⟨i, hi, h1, h2, h3⟩
      · left
        refine ⟨h1, ?_⟩
        intro j hj
        cases j with
        | zero => simpa using hfalse
        | succ j =>
          simp only [List.drop_succ_cons]
          exact h2 j (by simpa using hj)
      · right
        refine ⟨i + 1, by simpa using hi, ?_, by simpa using h2, ?_⟩
        · rw [h1]
          push_cast
          omega
        · intro j hj
          cases j with
          | zero => simpa using hfalse
          | succ j =>
            simp only [List.drop_succ_cons]
            exact h3 j (by omega)

theorem occursAt_iff (p n : GoString) (i : Nat) :
    occursAt p n i ↔ i ≤ n.length ∧ strings.HasPrefix (n.drop i) p = true := by
  unfold occursAt
  rw [HasPrefix_iff, List.length_drop]
  constructor
  · rintro ⟨h1, h2⟩
    exact ⟨by omega, by omega, h2⟩
  · rintro ⟨h1, h2, h3⟩
    exact ⟨by omega, h3⟩

/-- `strings.Index` returns `-1` when there is no occurrence, and the offset of the
first occurrence otherwise. -/
theorem Index_spec (n p : GoString) :
    (strings.Index n p = -1 ∧ ∀ j, ¬ occursAt p n j) ∨
      (∃ i : Nat, strings.Index n p = (i : Int) ∧ occursAt p n i ∧
        ∀ j, j < i → ¬ occursAt p n j) := by
  rcases indexFrom_spec p n 0 with ⟨h1, h2⟩ | ⟨i, hi, h1, h2, h3⟩
  · left
    refine ⟨h1, ?_⟩
    intro j hj
    rw [occursAt_iff] at hj
    rw [h2 j hj.1] at hj
    exact absurd hj.2 (by decide)
  · right
    refine ⟨i, by simpa [strings.Index] using h1, (occursAt_iff p n i).mpr ⟨hi, h2⟩, ?_⟩
    intro j hj hocc
    rw [occursAt_iff] at hocc
    rw [h3 j hj] at hocc
    exact absurd hocc.2 (by decide)

theorem byteAt_eq_dash_iff (n : GoString) (i : Nat) (hi : i < n.length) :
    byteAt n (i : Int) = dash ↔ n.get? i = some dash := by
  simp [byteAt, List.getD_eq_getElem?_getD, List.getElem?_eq_getElem hi]

theorem hasFullWord_of_Index (p n : GoString) (hp₁ : p ≠ str "") (hp₂ : p ≠ str "cataloger")
    (i : Nat) (hidx : strings.Index n p = (i : Int)) (hocc : occursAt p n i) :
    hasFullWord p n = true ↔
      ((i = 0 ∨ n.get? (i - 1) = some dash) ∧
        (i + p.length = n.length ∨ n.get? (i + p.length) = some dash)) := by
  have hbound : i + p.length ≤ n.length := hocc.1
  have hstop : (i : Int) + len p = ((i + p.length : Nat) : Int) := by
    simp [len]
  have h1 : ((i : Int) == -1) = false := by
    simp only [beq_eq_false_iff_ne, ne_eq]
    omega
  have hleft : (decide ((i : Int) > 0) && byteAt n ((i : Int) - 1) != dash) = true ↔
      ¬ (i = 0 ∨ n.get? (i - 1) = some dash) := by
    cases i with
    | zero => simp
    | succ i =>
      have hcast : ((i + 1 : Nat) : Int) - 1 = (i : Int) := by push_cast; omega
      have hpos : decide (((i + 1 : Nat) : Int) > 0) = true := decide_eq_true (by omega)
      have hb := byteAt_eq_dash_iff n i (by omega)
      rw [hcast, hpos, Bool.true_and, bne_iff_ne, ne_eq, hb]
      constructor
      · intro h
        rintro (h' | h')
        · omega
        · exact h (by simpa using h')
      · intro h h'
        exact h (Or.inr (by simpa using h'))
  have hright : (decide (((i + p.length : Nat) : Int) < len n) &&
        byteAt n ((i + p.length : Nat) : Int) != dash) = true ↔
      ¬ (i + p.length = n.length ∨ n.get? (i + p.length) = some dash) := by
    by_cases hlt : i + p.length < n.length
    · have hb := byteAt_eq_dash_iff n (i + p.length) hlt
      have hdec : decide (((i + p.length : Nat) : Int) < len n) = true :=
        decide_eq_true (by simp only [len]; omega)
      rw [hdec, Bool.true_and, bne_iff_ne, ne_eq, hb]
      constructor
      · intro h
        rintro (h' | h')
        · omega
        · exact h h'
      · intro h h'
        exact h (Or.inr h')
    · have heq : i + p.length = n.length := by omega
      have hdec : decide (((i + p.length : Nat) : Int) < len n) = false :=
        decide_eq_false (by simp only [len]; omega)
      rw [hdec, Bool.false_and]
      constructor
      · intro h
        exact absurd h (by decide)
      · intro h
        exact absurd (Or.inl heq) h
  have e : hasFullWord p n =
      (!(decide ((i : Int) > 0) && byteAt n ((i : Int) - 1) != dash) &&
        !(decide (((i + p.length : Nat) : Int) < len n) &&
          byteAt n ((i + p.length : Nat) : Int) != dash)) := by
    unfold hasFullWord
    have hc : ¬ ((p == str "cataloger" || p == str "") = true) := by
      simp [hp₁, hp₂]
    rw [if_neg hc]
    simp only [hidx, h1, Bool.false_eq_true, if_false, hstop]
    split_ifs with hA hB
    · rw [hA]; rfl
    · rw [hB]; simp
    · have hA' := Bool.eq_false_iff.mpr hA
      have hB' := Bool.eq_false_iff.mpr hB
      rw [hA', hB']; rfl
  rw [e, Bool.and_eq_true, Bool.not_eq_true', Bool.not_eq_true', ← Bool.not_eq_true,
    ← Bool.not_eq_true, hleft, hright, not_not, not_not]

theorem hasFullWord_special (p n : GoString) (h : p = str "" ∨ p = str "cataloger") :
    hasFullWord p n = false := by
  rcases h with h | h <;> simp [hasFullWord, h]

theorem hasFullWord_not_found (p n : GoString) (h : strings.Index n p = -1) :
    hasFullWord p n = false := by
  unfold hasFullWord
  split_ifs <;> simp_all

theorem first_occurrence_unique (p n : GoString) (i i' : Nat) (hi : occursAt p n i)
    (hmin : ∀ j, j < i → ¬ occursAt p n j) (hi' : occursAt p n i')
    (hmin' : ∀ j, j < i' → ¬ occursAt p n j) : i' = i := by
  rcases Nat.lt_trichotomy i' i with h | h | h
  · exact absurd hi' (hmin i' h)
  · exact h
  · exact absurd hi (hmin' i h)

/-- C28: `hasFullWord(p, n)` is true exactly when `p` is neither empty nor `cataloger`,
`p` occurs in `n`, and the first occurrence of `p` in `n` is preceded by the start of
`n` or `'-'` and followed by the end of `n` or `'-'`.  Later occurrences play no part:
when the first occurrence is not delimited so, the result is false whatever follows. -/
theorem hasFullWord_iff_first_occurrence (p n : GoString) :
    (hasFullWord p n = true ↔
        (p ≠ str "" ∧ p ≠ str "cataloger" ∧ ∃ i, firstOccurrenceIsWord p n i)) ∧
      (∀ i, occursAt p n i → (∀ j, j < i → ¬ occursAt p n j) →
        ¬ ((i = 0 ∨ n.get? (i - 1) = some dash) ∧
            (i + p.length = n.length ∨ n.get? (i + p.length) = some dash)) →
        hasFullWord p n = false) := by
  constructor
  · constructor
    · intro h
      have hp₁ : p ≠ str "" := by
        intro hp
        rw [hasFullWord_special p n (Or.inl hp)] at h
        exact absurd h (by decide)
      have hp₂ : p ≠ str "cataloger" := by
        intro hp
        rw [hasFullWord_special p n (Or.inr hp)] at h
        exact absurd h (by decide)
      refine ⟨hp₁, hp₂, ?_⟩
      rcases Index_spec n p with ⟨h1, _⟩ | ⟨i, hidx, hocc, hmin⟩
      · rw [hasFullWord_not_found p n h1] at h
        exact absurd h (by decide)
      · have hw := (hasFullWord_of_Index p n hp₁ hp₂ i hidx hocc).mp h
        exact ⟨i, hocc, hmin, hw.1, hw.2⟩
    · rintro ⟨hp₁, hp₂, i, hocc, hmin, hw₁, hw₂⟩
      rcases Index_spec n p with ⟨_, h2⟩ | ⟨i', hidx, hocc', hmin'⟩
      · exact absurd hocc (h2 i)
      · have hii := first_occurrence_unique p n i i' hocc hmin hocc' hmin'
        subst hii
        exact (hasFullWord_of_Index p n hp₁ hp₂ i' hidx hocc').mpr ⟨hw₁, hw₂⟩
  · intro i hocc hmin hnot
    by_cases hp₁ : p = str ""
    · exact hasFullWord_special p n (Or.inl hp₁)
    by_cases hp₂ : p = str "cataloger"
    · exact hasFullWord_special p n (Or.inr hp₂)
    rcases Index_spec n p with ⟨_, h2⟩ | ⟨i', hidx, hocc', hmin'⟩
    · exact absurd hocc (h2 i)
    · have hii := first_occurrence_unique p n i i' hocc hmin hocc' hmin'
      subst hii
      cases hres : hasFullWord p n with
      | false => rfl
      | true => exact absurd ((hasFullWord_of_Index p n hp₁ hp₂ i' hidx hocc').mp hres) hnot

/-! ## Monotonicity of the selection -/

theorem containsLoop_append (name : GoString) (ps qs : List GoString) :
    containsLoop name (ps ++ qs) = (containsLoop name ps || containsLoop name qs) := by
  induction ps with
  | nil => simp [containsLoop]
  | cons p ps ih =>
    simp only [List.cons_append, containsLoop]
    split_ifs <;> simp [ih]

/-- C31: once a pattern is given, more patterns select more: the catalogers returned
for the patterns `ps` are returned for `ps ++ qs` too, in the same relative order (the
first result is a sublist of the second). -/
theorem filterCatalogers_monotone {κ : Type} (Name : κ → GoString) (cs : List κ)
    (ps qs : List GoString) (hne : ps ≠ []) :
    (filterCatalogers Name cs ps).Sublist (filterCatalogers Name cs (ps ++ qs)) ∧
      ∀ c, c ∈ filterCatalogers Name cs ps → c ∈ filterCatalogers Name cs (ps ++ qs) := by
  have hsub : (filterCatalogers Name cs ps).Sublist (filterCatalogers Name cs (ps ++ qs)) := by
    have hne' : ps ++ qs ≠ [] := by
      intro h
      exact hne (List.append_eq_nil.mp h).1
    by_cases hall : AllCatalogersPattern ∈ ps
    · have h1 : requestsAll ps = true := (requestsAll_iff ps).mpr hall
      have h2 : requestsAll (ps ++ qs) = true :=
        (requestsAll_iff _).mpr (List.mem_append_left _ hall)
      have e1 : filterCatalogers Name cs ps = cs := by simp [filterCatalogers, h1]
      have e2 : filterCatalogers Name cs (ps ++ qs) = cs := by simp [filterCatalogers, h2]
      rw [e1, e2]
    · rw [filterCatalogers_eq_filter Name cs ps hne hall]
      by_cases hall' : AllCatalogersPattern ∈ ps ++ qs
      · have h2 : requestsAll (ps ++ qs) = true := (requestsAll_iff _).mpr hall'
        have e2 : filterCatalogers Name cs (ps ++ qs) = cs := by simp [filterCatalogers, h2]
        rw [e2]
        exact List.filter_sublist _
      · rw [filterCatalogers_eq_filter Name cs (ps ++ qs) hne' hall']
        apply List.monotone_filter_right
        intro c hc
        simp only [contains, containsLoop_append, Bool.or_eq_true] at hc ⊢
        exact Or.inl hc
  exact ⟨hsub, fun c hc => hsub.subset hc⟩

theorem filterCatalogers_monotone_witness :
    [str "rpm"] ≠ [] ∧
      (filterCatalogers id [str "go-mod-cataloger", str "rpm-db-cataloger"] [str "rpm"]).Sublist
        (filterCatalogers id [str "go-mod-cataloger", str "rpm-db-cataloger"]
          ([str "rpm"] ++ [str "go"])) :=
  ⟨by decide,
    (filterCatalogers_monotone id [str "go-mod-cataloger", str "rpm-db-cataloger"] [str "rpm"]
      [str "go"] (by decide)).1⟩

/-! ## The mode of a file -/

theorem octalLoop_eq (fuel u : Nat) (buf : List Nat) (hfuel : u ≤ fuel) (hu : 0 < u) :
    fmt.octalLoop fuel u buf = (Nat.digits 8 u).reverse.map (fun d => 48 + d) ++ buf := by
  induction fuel generalizing u buf with
  | zero => omega
  | succ fuel ih =>
    unfold fmt.octalLoop
    by_cases h : u ≥ 8
    · rw [if_pos h, ih (u / 8) _ (by omega) (by omega), Nat.digits_def' (by norm_num) hu]
      simp
    · rw [if_neg h, Nat.digits_of_lt 8 u (by omega) (by omega)]
      simp

/-- The string of `fmt.Sprintf("%o", u)` is the list of the octal digits of `u`, most
significant first; for zero it is the one digit `0`. -/
theorem SprintfOctal_eq (u : Nat) (hu : 0 < u) :
    fmt.SprintfOctal u = (Nat.digits 8 u).reverse.map (fun d => 48 + d) := by
  unfold fmt.SprintfOctal
  rw [octalLoop_eq u u [] (Nat.le_refl _) hu, List.append_nil]

theorem decimal_foldl_eq (L : List Nat) :
    ((L.reverse.map (fun d => 48 + d)).foldl (fun n ch => n * 10 + (ch - 48)) 0)
      = Nat.ofDigits 10 L := by
  induction L with
  | nil => simp
  | cons d L ih =>
    rw [List.reverse_cons, List.map_append, List.foldl_append, ih, Nat.ofDigits_cons]
    simp only [List.map_cons, List.map_nil, List.foldl_cons, List.foldl_nil]
    omega

/-- `strconv.Atoi` on a string of decimal digits without sign whose value fits an
`int`: the value, and no error. -/
theorem Atoi_digits (L : List Nat) (hL : L ≠ []) (hdigit : ∀ d ∈ L, d ≤ 9)
    (hfit : Nat.ofDigits 10 L < 2 ^ 63) :
    strconv.Atoi (L.reverse.map (fun d => 48 + d))
      = (((Nat.ofDigits 10 L : Nat) : Int), none) := by
  have hval := decimal_foldl_eq L
  have hrange : ∀ ch ∈ L.reverse.map (fun d => 48 + d), 48 ≤ ch ∧ ch ≤ 57 := by
    intro ch hch
    simp only [List.mem_map, List.mem_reverse] at hch
    obtain ⟨d, hd, rfl⟩ := hch
    have := hdigit d hd
    omega
  have hnonempty : L.reverse.map (fun d => 48 + d) ≠ [] := by
    simpa using hL
  generalize L.reverse.map (fun d => 48 + d) = s at hval hrange hnonempty
  cases s with
  | nil => exact absurd rfl hnonempty
  | cons c rest =>
    have hc := hrange c (List.mem_cons_self _ _)
    have h45 : (c == 45) = false := by simp; omega
    have h43 : (c == 43) = false := by simp; omega
    have hany : (c :: rest).any (fun ch => decide (ch < 48) || decide (57 < ch)) = false := by
      rw [List.any_eq_false]
      intro ch hch
      have := hrange ch hch
      simp only [Bool.or_eq_true, decide_eq_true_eq, not_or, not_lt]
      omega
    simp only [strconv.Atoi, h45, h43, Bool.or_self, Bool.false_eq_true, if_false, hany,
      List.isEmpty_cons, hval]
    rw [if_neg (not_le.mpr hfit)]

theorem octal_reading_fits (m : Nat) (hm : m < 2 ^ 32) :
    Nat.ofDigits 10 (Nat.digits 8 m) < 2 ^ 63 := by
  by_cases h0 : m = 0
  · subst h0
    simp
  · have hlen : (Nat.digits 8 m).length ≤ 11 := by
      have h1 := Nat.base_pow_length_digits_le 8 m (by norm_num) h0
      have h2 : 8 ^ (Nat.digits 8 m).length < 8 ^ 12 := by
        calc 8 ^ (Nat.digits 8 m).length ≤ 8 * m := h1
          _ < 8 ^ 12 := by norm_num at hm ⊢; omega
      have h3 := (Nat.pow_lt_pow_iff_right (by norm_num : 1 < 8)).mp h2
      omega
    have hlt : Nat.ofDigits 10 (Nat.digits 8 m) < 10 ^ (Nat.digits 8 m).length := by
      apply Nat.ofDigits_lt_base_pow_length (by norm_num)
      intro d hd
      have := Nat.digits_lt_base (by norm_num : 1 < 8) hd
      omega
    calc Nat.ofDigits 10 (Nat.digits 8 m) < 10 ^ (Nat.digits 8 m).length := hlt
      _ ≤ 10 ^ 11 := Nat.pow_le_pow_right (by norm_num) hlen
      _ < 2 ^ 63 := by norm_num

/-- The decimal parse of the octal digits of an unsigned 32-bit value succeeds and
gives the decimal reading of the digits. -/
theorem Atoi_SprintfOctal (m : Nat) (hm : m < 2 ^ 32) :
    strconv.Atoi (fmt.SprintfOctal m)
      = (((Nat.ofDigits 10 (Nat.digits 8 m) : Nat) : Int), none) := by
  by_cases h0 : m = 0
  · subst h0
    simp only [Nat.digits_zero, Nat.ofDigits_nil]
    decide
  · rw [SprintfOctal_eq m (Nat.pos_of_ne_zero h0)]
    apply Atoi_digits
    · intro h
      exact h0 (Nat.digits_eq_nil_iff_eq_zero.mp h)
    · intro d hd
      have := Nat.digits_lt_base (by norm_num : 1 < 8) hd
      omega
    · exact octal_reading_fits m hm

/-- C32: for a file metadata whose `Mode` is an unsigned 32-bit value `m`,
`toFileMetadataEntry` returns an entry whose `Mode` is the number that the octal
digits of `m` spell when they are read in base 10; the decimal parse of these digits
returns no error, so the branch that resets the mode to 0 is not taken.  The other
fields are copied, the type through `toFileType`. -/
theorem toFileMetadataEntry_mode (coordinates : source.Coordinates)
    (metadata : source.FileMetadata) (hmode : metadata.Mode < 2 ^ 32) :
    (strconv.Atoi (fmt.SprintfOctal metadata.Mode)).2 = none ∧
      toFileMetadataEntry coordinates (some metadata)
        = some
            { Mode := ((Nat.ofDigits 10 (Nat.digits 8 metadata.Mode) : Nat) : Int)
              Type_ := toFileType metadata.Type_
              LinkDestination := metadata.LinkDestination
              UserID := metadata.UserID
              GroupID := metadata.GroupID
              MIMEType := metadata.MIMEType } := by
  have h := Atoi_SprintfOctal metadata.Mode hmode
  refine ⟨by rw [h], ?_⟩
  simp only [toFileMetadataEntry, h, Option.isSome_none, Bool.false_eq_true, if_false]

theorem toFileMetadataEntry_mode_witness :
    (420 : Nat) < 2 ^ 32 ∧ fmt.SprintfOctal 420 = str "644" ∧
      (toFileMetadataEntry { RealPath := str "/bin/sh", FileSystemID := str "" }
          (some { Mode := 420, Type_ := stereoscopeFile.Type_.TypeRegular, UserID := 0,
                  GroupID := 0, LinkDestination := str "", MIMEType := str "" })).map
          (fun entry => entry.Mode)
        = some 644 :=
  ⟨by decide, by decide,
    (congrArg (Option.map fun entry => entry.Mode)
      (toFileMetadataEntry_mode { RealPath := str "/bin/sh", FileSystemID := str "" }
        { Mode := 420, Type_ := stereoscopeFile.Type_.TypeRegular, UserID := 0,
          GroupID := 0, LinkDestination := str "", MIMEType := str "" }
        (by decide)).2).trans (by norm_num [Nat.ofDigits])⟩
